import Mathlib

/-! Executable wrapping in the NVIDIA container toolkit.

A shallow embedding of

* `tools/container/toolkit/executable.go` (the installer: `install`, `installWrapper`,
  `writeWrapperArgv`, `writeWrapperEnvv`, `ensureExecutable`), and
* `tools/container/wrapper/wrapper.go` (the wrapper runtime: `main`, `isRuntimeWrapper`,
  `isNvidiaModuleLoaded`, `makeArgv`, `makeEnvv`, `execve`).

Conventions of the embedding.

* A Go `string` is a Lean `String`; every operation on it is defined on its list of characters.
  Go compares and slices bytes; for text that is valid UTF-8 the byte order of two strings is the
  order of their code points, and the only slice taken (`kv[0][1:]`) removes a one-byte character.
* A Go `error` is the `String` of its message; `nil` is `none`.
* A Go map is an association list without duplicate keys (`GoMap`); the order in which `range`
  visits it is an arbitrary rearrangement (`RangeOrder`).
* The file system and the process environment are explicit values (`Sys`, `Process`); what the
  operating system answers (a failing open, a read error) is a field of those values.
* `log.Fatalf`, a run-time panic and `unix.Exec` end the wrapper: they are the three `Exit`s.
-/

namespace Toolkit

/-! ## Strings -/

/-- Go `strings.HasPrefix`. -/
def HasPrefix (s pre : String) : Bool :=
  pre.data.isPrefixOf s.data

/-- Lexicographic comparison of two texts by code point: `a ≤ b` in the order Go's string
comparison gives to valid UTF-8. -/
def lessEq : List Char → List Char → Bool
  | [], _ => true
  | _ :: _, [] => false
  | a :: as, b :: bs =>
    if a.toNat < b.toNat then true
    else if b.toNat < a.toNat then false
    else lessEq as bs

/-- Go `a <= b` on strings. -/
def stringLE (a b : String) : Bool :=
  lessEq a.data b.data

/-- Go `sort.Strings`: the ascending rearrangement of the slice. Equal strings are
indistinguishable, so the result does not depend on the sorting algorithm. -/
def sortStrings (l : List String) : List String :=
  l.insertionSort (fun a b => stringLE a b = true)

/-- Text written by a loop of `fmt.Fprintf(f, "%s\n", x)` over `l`. -/
def joinLines : List String → String
  | [] => ""
  | x :: xs => x ++ "\n" ++ joinLines xs

/-- Go `path/filepath.Base` on Unix: the last element of the path, trailing slashes removed;
`"."` for the empty path and `"/"` for a path of slashes only. -/
def filepathBase (path : String) : String :=
  if path.data.isEmpty then "."
  else
    let stripped := (path.data.reverse.dropWhile (fun c => c = '/'))
    let last := (stripped.takeWhile (fun c => c ≠ '/')).reverse
    if last.isEmpty then "/" else String.mk last

/-! ## Go maps -/

/-- A Go `map[string]string`: its entries, no key twice. -/
structure GoMap where
  entries : List (String × String)
  nodup : (entries.map Prod.fst).Nodup

/-- The map made by `make(map[string]string)`. -/
def GoMap.empty : GoMap :=
  ⟨[], List.nodup_nil⟩

/-- The two-valued lookup `v, ok := m[k]`. -/
def GoMap.get? (m : GoMap) (k : String) : Option String :=
  (m.entries.find? (fun e => e.1 = k)).map Prod.snd

/-- The statement `delete(m, k)`. -/
def GoMap.delete (m : GoMap) (k : String) : GoMap :=
  ⟨m.entries.filter (fun e => e.1 ≠ k),
    (m.nodup.sublist ((List.filter_sublist m.entries).map Prod.fst))⟩

/-- The statement `m[k] = v`. -/
def GoMap.set (m : GoMap) (k v : String) : GoMap :=
  ⟨(k, v) :: m.entries.filter (fun e => e.1 ≠ k), by
    rw [List.map_cons, List.nodup_cons]
    refine ⟨?_, m.nodup.sublist ((List.filter_sublist m.entries).map Prod.fst)⟩
    intro h
    obtain ⟨e, he, hk⟩ := List.mem_map.1 h
    have := (List.mem_filter.1 he).2
    simp [hk] at this⟩

/-- The order in which a `range` loop visits the entries of a map: unspecified by Go, so any
rearrangement of the entries. -/
structure RangeOrder where
  iter : List (String × String) → List (String × String)
  perm : ∀ l, (iter l).Perm l

/-- The iteration order that visits the entries as they are stored. -/
def RangeOrder.stored : RangeOrder :=
  ⟨fun l => l, fun l => List.Perm.refl l⟩

/-- The iteration order that visits the entries backwards. -/
def RangeOrder.backwards : RangeOrder :=
  ⟨fun l => l.reverse, fun l => List.reverse_perm l⟩

/-! ## The file system seen by the installer -/

/-- A regular file: its bytes and its permission bits. -/
structure File where
  content : String
  mode : Nat

/-- The part of the operating system the installer talks to. -/
structure Sys where
  /-- The files present, by path. -/
  files : String → Option File
  /-- The error `os.OpenFile(path, O_RDWR|O_CREATE|O_TRUNC, perm)` returns for a path, if it
  fails there. -/
  openFileErr : String → Option String
  /-- The error `os.Chmod` returns for a path, if it fails there. -/
  chmodErr : String → Option String
  /-- The result of `os.Executable()`. -/
  osExecutable : Except String String

/-- The content of the file at `path`, if there is one. -/
def Sys.contentOf (s : Sys) (path : String) : Option String :=
  (s.files path).map File.content

/-- Go `os.OpenFile(path, os.O_RDWR|os.O_CREATE|os.O_TRUNC, perm)`: an existing file is emptied
and keeps its mode, a missing one is created empty with mode `perm`. -/
def Sys.openFile (s : Sys) (path : String) (perm : Nat) : Except String Sys :=
  match s.openFileErr path with
  | some err => .error err
  | none =>
    .ok { s with
      files := fun p =>
        if p = path then
          some ⟨"", match s.files path with
            | some f => f.mode
            | none => perm⟩
        else s.files p }

/-- One `fmt.Fprintf` to the file opened at `path`: the text is appended. The source discards the
error of `Fprintf`; a write to an open file is taken to succeed. -/
def Sys.write (s : Sys) (path : String) (data : String) : Sys :=
  { s with
    files := fun p =>
      if p = path then (s.files path).map (fun f => { f with content := f.content ++ data })
      else s.files p }

/-! ## Declarations of the toolkit package that the installer uses -/

/-- The declarations `executable.go` uses from other files of its package and from
`path/filepath`: the path-template token `destDirPattern`, `newReplacements` together with the
`apply` of its result (given token, replacement and input), `installFileToFolderWithName`
(given destination folder, name and source; returns the installed path and an error), and
`filepath.Join(filepath.Dir(exe), name)`. They are parameters of the embedding. -/
structure Deps where
  destDirPattern : String
  newReplacements : String → String → String → String
  installFileToFolderWithName : Sys → String → String → String → (String × Option String) × Sys
  joinDir : String → String → String

/-! ## executable.go -/

/-- Go `type executableTarget struct`. -/
structure executableTarget where
  wrapperName : String

/-- Go `type executable struct`; a nil slice and a nil map are `none`. -/
structure executable where
  source : String
  target : executableTarget
  argv : Option (List String)
  envm : Option GoMap

/-- The value `e.envm[k]` with its `ok`: `none` when the mapping is nil or has no key `k`. -/
def executable.lookupEnv (e : executable) (k : String) : Option String :=
  e.envm.bind (fun m => m.get? k)

/-- The entries of `e.envm`; none for a nil mapping. -/
def executable.envEntries (e : executable) : List (String × String) :=
  match e.envm with
  | none => []
  | some m => m.entries

/-- Go `func (e executable) wrapperName() string`. -/
def executable.wrapperName (e : executable) : String :=
  if e.target.wrapperName = "" then filepathBase e.source else e.target.wrapperName

/-- Go `func (e executable) dotRealFilename() string`. -/
def executable.dotRealFilename (e : executable) : String :=
  e.wrapperName ++ ".real"

/-- Go `func (e executable) writeWrapperArgv(wrapperPath string, destFolder string) error`. -/
def executable.writeWrapperArgv (T : Deps) (e : executable) (wrapperPath destFolder : String)
    (s : Sys) : Option String × Sys :=
  match e.argv with
  | none => (none, s)
  | some argv =>
    let r := T.newReplacements T.destDirPattern destFolder
    match s.openFile (wrapperPath ++ ".argv") 0o440 with
    | .error err => (some err, s)
    | .ok s1 =>
      (none, argv.foldl (fun st arg => st.write (wrapperPath ++ ".argv") (r arg ++ "\n")) s1)

/-- The map `envm` of `writeWrapperEnvv` after the block "Update PATH to insert the destination
folder at the head". -/
def executable.effectiveEnvm (e : executable) (destFolder : String) : GoMap :=
  let envm :=
    match e.envm with
    | none => GoMap.empty
    | some m => m
  match envm.get? "PATH" with
  | some path => envm.set "PATH" (destFolder ++ ":" ++ path)
  | none => (envm.delete "PATH").set "<PATH" destFolder

/-- The slice `envv` of `writeWrapperEnvv` after `sort.Strings(envv)`: one `k=r.apply(v)` for
each entry the `range` loop visits, sorted. -/
def executable.envvLines (T : Deps) (order : RangeOrder) (e : executable)
    (destFolder : String) : List String :=
  let r := T.newReplacements T.destDirPattern destFolder
  sortStrings ((order.iter (e.effectiveEnvm destFolder).entries).map
    (fun kv => kv.1 ++ "=" ++ r kv.2))

/-- Go `func (e executable) writeWrapperEnvv(wrapperPath string, destFolder string) error`. The
source opens the file first and then updates `envm` in place; the update is not visible in the
file system, and `effectiveEnvm` is the updated mapping. -/
def executable.writeWrapperEnvv (T : Deps) (order : RangeOrder) (e : executable)
    (wrapperPath destFolder : String) (s : Sys) : Option String × Sys :=
  match s.openFile (wrapperPath ++ ".envv") 0o440 with
  | .error err => (some err, s)
  | .ok s1 =>
    (none, (e.envvLines T order destFolder).foldl
      (fun st line => st.write (wrapperPath ++ ".envv") (line ++ "\n")) s1)

/-- Go `func ensureExecutable(path string) error`: `os.Stat` fails on a missing file, then
`os.Chmod(path, mode | 0111)`. -/
def ensureExecutable (path : String) (s : Sys) : Option String × Sys :=
  match s.files path with
  | none =>
    (some ("error getting file info for '" ++ path ++ "': stat " ++ path ++
      ": no such file or directory"), s)
  | some f =>
    match s.chmodErr path with
    | some err => (some ("error setting executable mode for '" ++ path ++ "': " ++ err), s)
    | none =>
      (none, { s with
        files := fun p => if p = path then some { f with mode := f.mode ||| 0o111 }
          else s.files p })

/-- Go `func (e executable) installWrapper(destFolder string) (string, error)`. -/
def executable.installWrapper (T : Deps) (order : RangeOrder) (e : executable)
    (destFolder : String) (s : Sys) : (String × Option String) × Sys :=
  match s.osExecutable with
  | .error err => (("", some ("error getting current executable: " ++ err)), s)
  | .ok currentExe =>
    let src := T.joinDir currentExe "wrapper"
    match T.installFileToFolderWithName s destFolder e.wrapperName src with
    | ((_, some err), s1) => (("", some ("error installing wrapper program: " ++ err)), s1)
    | ((wrapperPath, none), s1) =>
      match e.writeWrapperArgv T wrapperPath destFolder s1 with
      | (some err, s2) => (("", some ("error writing wrapper argv: " ++ err)), s2)
      | (none, s2) =>
        match e.writeWrapperEnvv T order wrapperPath destFolder s2 with
        | (some err, s3) => (("", some ("error writing wrapper envv: " ++ err)), s3)
        | (none, s3) =>
          match ensureExecutable wrapperPath s3 with
          | (some err, s4) => (("", some ("error making wrapper executable: " ++ err)), s4)
          | (none, s4) => ((wrapperPath, none), s4)

/-- Go `func (e executable) install(destFolder string) (string, error)`. The `log.Infof` lines
write to the logger only and are left out. -/
def executable.install (T : Deps) (order : RangeOrder) (e : executable) (destFolder : String)
    (s : Sys) : (String × Option String) × Sys :=
  if destFolder = "" then (("", some "destination folder must be specified"), s)
  else if e.source = "" then (("", some "source executable must be specified"), s)
  else
    let dotRealFilename := e.dotRealFilename
    match T.installFileToFolderWithName s destFolder dotRealFilename e.source with
    | ((_, some err), s1) =>
      (("", some ("error installing file '" ++ e.source ++ "' as '" ++ dotRealFilename ++
        "': " ++ err)), s1)
    | ((_, none), s1) =>
      match e.installWrapper T order destFolder s1 with
      | ((_, some err), s2) => (("", some ("error installing wrapper: " ++ err)), s2)
      | ((wrapperPath, none), s2) => ((wrapperPath, none), s2)

/-! ## A concrete instance of the package declarations -/

/-- Go `strings.ReplaceAll` for a non-empty `old`, left to right over non-overlapping
occurrences; the first argument bounds the number of steps. -/
def replaceAllAux (old new : List Char) : Nat → List Char → List Char
  | 0, s => s
  | _ + 1, [] => []
  | n + 1, c :: cs =>
    if old.isPrefixOf (c :: cs) then
      new ++ replaceAllAux old new n ((c :: cs).drop old.length)
    else c :: replaceAllAux old new n cs

/-- Modelled from the spec: path-template substitution (`newReplacements(token, dest)` and the
`apply` of its result are declared outside the files embedded here). "Resolved by substituting
the actual destination folder for the literal token": every occurrence of the token in the input
is replaced by the destination folder. -/
def substitute (token dest input : String) : String :=
  if token.data.isEmpty then input
  else String.mk (replaceAllAux token.data dest.data input.data.length input.data)

/-- Modelled from the spec: `installFileToFolderWithName` (declared outside the files embedded
here). "Copies `source` to `destFolder/<name>`, preserving file mode and content byte-for-byte;
fails on any copy failure". -/
def copyFileToFolderWithName (s : Sys) (destFolder name src : String) :
    (String × Option String) × Sys :=
  match s.files src with
  | none => (("", some ("error opening source: open " ++ src ++ ": no such file or directory")), s)
  | some f =>
    let dest := destFolder ++ "/" ++ name
    match s.openFileErr dest with
    | some err => (("", some ("error creating destination: " ++ err)), s)
    | none => ((dest, none), { s with files := fun p => if p = dest then some f else s.files p })

/-- Modelled from the spec: "relative to the currently running program's own install location
(same directory as the installer process)": the directory part of `exe` followed by `name`. -/
def siblingPath (exe name : String) : String :=
  String.mk ((exe.data.reverse.dropWhile (fun c => c ≠ '/')).reverse ++ name.data)

/-- Modelled from the spec: the package declarations with the token `@destDir@`. -/
def specDeps : Deps :=
  ⟨"@destDir@", substitute, copyFileToFolderWithName, siblingPath⟩

/-- A file system with no file in which every operation succeeds. -/
def emptySys : Sys :=
  ⟨fun _ => none, fun _ => none, fun _ => none, .ok "/work/nvidia-ctk-installer"⟩

/-! ## wrapper.go -/

/-- What `os.Open` and the reads that follow give for a path. -/
inductive OpenResult where
  /-- Go `os.Open` fails with an error for which `errors.Is(err, fs.ErrNotExist)` holds. -/
  | notExist (err : String)
  /-- Go `os.Open` fails with any other error. -/
  | failed (err : String)
  /-- Go `os.Open` succeeds; reading delivers `data` and then end of file, or the error `readErr`. -/
  | file (data : String) (readErr : Option String)
  deriving DecidableEq

/-- The process the wrapper runs as, and the operating system it talks to. -/
structure Process where
  /-- Go `os.Args`. -/
  args : List String
  /-- Go `os.Environ()`. -/
  environ : List String
  /-- Go `os.Getenv`. -/
  getenv : String → String
  /-- Go `os.Executable()`. -/
  osExecutable : Except String String
  /-- Go `os.Open` with the reads of the file. -/
  osOpen : String → OpenResult
  /-- Whether `os.Stat` returns a nil error. -/
  statOk : String → Bool
  /-- Go `exec.LookPath`. -/
  lookPath : String → Except String String

/-- What the wrapper does that can be seen from outside, in order. -/
inductive Event where
  /-- A line written by `log.Printf` or `log.Println`. -/
  | log (msg : String)
  /-- A call of `os.Open`. -/
  | opened (path : String)
  deriving DecidableEq

/-- The ways the wrapper ends. -/
inductive Exit where
  /-- Go `log.Fatalf`: the message is logged and the process exits with status 1. -/
  | fatal (msg : String)
  /-- A run-time panic (index or slice bounds out of range). -/
  | panic
  /-- The call `unix.Exec(program, argv, envv)`: the process image is replaced, or, when the call
  fails, `execve` ends the process with `log.Fatalf`. -/
  | exec (program : String) (argv envv : List String)
  deriving DecidableEq

deriving instance DecidableEq for Except

/-- Go `bufio.MaxScanTokenSize`. -/
def maxScanTokenSize : Nat := 64 * 1024

/-- The `dropCR` of `bufio.ScanLines`: one trailing carriage return is removed. -/
def dropCR (l : List Char) : List Char :=
  if l.getLast? = some '\r' then l.dropLast else l

/-- The lines `bufio.ScanLines` cuts the data into, before `dropCR`: each ends at a newline; the
last one ends at the end of the data and is left out when empty. `cur` is the text of the
current line read so far. -/
def rawLines : List Char → List Char → List (List Char)
  | [], cur => if cur.isEmpty then [] else [cur]
  | c :: rest, cur => if c = '\n' then cur :: rawLines rest [] else rawLines rest (cur ++ [c])

/-- The tokens a `bufio.Scanner` delivers for the given lines, and whether it stopped with
`bufio.ErrTooLong`: a line of `maxScanTokenSize` bytes or more fills the buffer. -/
def scanTokens : List (List Char) → List String × Bool
  | [] => ([], false)
  | l :: ls =>
    if maxScanTokenSize ≤ (String.mk l).utf8ByteSize then ([], true)
    else ((String.mk (dropCR l)) :: (scanTokens ls).1, (scanTokens ls).2)

/-- The outcome of the loop `for scanner.Scan() { ... scanner.Text() ... }` followed by
`scanner.Err()`. -/
structure Scanned where
  tokens : List String
  err : Option String

/-- A `bufio.NewScanner(f)` run to its end over a file that delivers `data` and then `readErr`. -/
def scan (data : String) (readErr : Option String) : Scanned :=
  let r := scanTokens (rawLines data.data [])
  ⟨r.1, if r.2 then some "bufio.Scanner: token too long" else readErr⟩

/-- Go `strings.SplitN(s, "=", 2)`: the text before the first `=` and, when there is one, the
text after it. -/
def splitEq : List Char → List Char × Option (List Char)
  | [] => ([], none)
  | c :: cs => if c = '=' then ([], some cs) else ((c :: (splitEq cs).1), (splitEq cs).2)

/-- Go `s[1:]` for a string that starts with a one-byte character. -/
def dropFirst (s : String) : String :=
  String.mk (s.data.drop 1)

/-- The body of the scanning loop of `makeEnvv` for one line: the entry it appends to `env`, or
`none` when `kv[1]` is out of range. -/
def resolveLine (p : Process) (line : String) : Option String :=
  match splitEq line.data with
  | (_, none) => none
  | (k, some v) =>
    let kv0 := String.mk k
    let kv1 := String.mk v
    if HasPrefix kv0 "<" then
      some (dropFirst kv0 ++ "=" ++ (kv1 ++ ":" ++ p.getenv (dropFirst kv0)))
    else if HasPrefix kv0 ">" then
      some (dropFirst kv0 ++ "=" ++ (p.getenv (dropFirst kv0) ++ ":" ++ kv1))
    else some (kv0 ++ "=" ++ kv1)

/-- The scanning loop of `makeEnvv` over the tokens of the scanner: the slice `env`, or `none`
when some line makes the body panic. -/
def resolveLines (p : Process) : List String → Option (List String)
  | [] => some []
  | t :: ts =>
    match resolveLine p t with
    | none => none
    | some x =>
      match resolveLines p ts with
      | none => none
      | some xs => some (x :: xs)

/-- Go `func isRuntimeWrapper(program string) bool`. -/
def isRuntimeWrapper (program : String) : Bool :=
  filepathBase program = "nvidia-container-runtime" ||
    filepathBase program = "nvidia-container-runtime.cdi" ||
    filepathBase program = "nvidia-container-runtime.legacy"

/-- Go `func isNvidiaModuleLoaded() bool`. -/
def isNvidiaModuleLoaded (p : Process) : Bool :=
  p.statOk "/proc/driver/nvidia/version"

/-- Go `func makeArgv(program string) []string`, with the events of the call. -/
def makeArgv (p : Process) (program : String) : List Event × Except Exit (List String) :=
  match p.args with
  | [] => ([], .error .panic)
  | arg0 :: rest =>
    let argv := [arg0 ++ ".real"]
    match p.osOpen (program ++ ".argv") with
    | .notExist _ => ([.opened (program ++ ".argv")], .ok (argv ++ rest))
    | .failed err =>
      ([.opened (program ++ ".argv"), .log ("failed to open argv file: " ++ err)],
        .ok (argv ++ rest))
    | .file data readErr =>
      let sc := scan data readErr
      match sc.err with
      | some err =>
        ([.opened (program ++ ".argv")], .error (.fatal ("failed to read argv file: " ++ err)))
      | none => ([.opened (program ++ ".argv")], .ok (argv ++ sc.tokens ++ rest))

/-- Go `func makeEnvv(program string) []string`, with the events of the call. -/
def makeEnvv (p : Process) (program : String) : List Event × Except Exit (List String) :=
  match p.osOpen (program ++ ".envv") with
  | .notExist _ => ([.opened (program ++ ".envv")], .ok p.environ)
  | .failed err =>
    ([.opened (program ++ ".envv"), .log ("failed to open env file: " ++ err)], .ok p.environ)
  | .file data readErr =>
    let sc := scan data readErr
    match resolveLines p sc.tokens with
    | none => ([.opened (program ++ ".envv")], .error .panic)
    | some env =>
      match sc.err with
      | some err =>
        ([.opened (program ++ ".envv")], .error (.fatal ("failed to read argv file: " ++ err)))
      | none => ([.opened (program ++ ".envv")], .ok (env ++ p.environ))

/-- Go `func main()` of the wrapper, with `execve` inlined: the events and the way it ends. -/
def main (p : Process) : List Event × Exit :=
  match p.osExecutable with
  | .error err => ([], .fatal ("failed to get executable: " ++ err))
  | .ok program =>
    if isRuntimeWrapper program && !isNvidiaModuleLoaded p then
      let ev := [Event.log "nvidia driver modules are not yet loaded, invoking runc directly"]
      match p.lookPath "runc" with
      | .error err => (ev, .fatal ("failed to find runc: " ++ err))
      | .ok runc =>
        match p.args with
        | [] => (ev, .panic)
        | _ :: rest => (ev, .exec runc ("runc" :: rest) p.environ)
    else
      match makeArgv p program with
      | (ev1, .error x) => (ev1, x)
      | (ev1, .ok argv) =>
        match makeEnvv p program with
        | (ev2, .error x) => (ev1 ++ ev2, x)
        | (ev2, .ok envv) => (ev1 ++ ev2, .exec (program ++ ".real") argv envv)

/-- The name of an environment entry: the text before its first `=`. -/
def entryName (entry : String) : String :=
  String.mk (splitEq entry.data).1

/-- The entry an environment vector holds for a name when the first occurrence wins. -/
def firstEntry (envv : List String) (name : String) : Option String :=
  envv.find? (fun entry => entryName entry = name)

/-- The entry of the claim "resolves to" for a sidecar line `key=value`: prepend for `<K`,
append for `>K`, the line itself otherwise. -/
def resolvedEntry (p : Process) (key value : String) : String :=
  if HasPrefix key "<" then
    dropFirst key ++ "=" ++ value ++ ":" ++ p.getenv (dropFirst key)
  else if HasPrefix key ">" then
    dropFirst key ++ "=" ++ p.getenv (dropFirst key) ++ ":" ++ value
  else key ++ "=" ++ value

/-! ## Concrete inputs -/

/-- A descriptor with two environment variables and no `PATH`. -/
def fooBarExecutable : executable :=
  ⟨"source", ⟨""⟩, none, some ⟨[("FOO", "BAR"), ("BAZ", "@destDir@/lib")], by decide⟩⟩

/-- A descriptor whose mapping has no key `PATH` but a key that begins with `PATH=`. -/
def pathEqKeyExecutable : executable :=
  ⟨"source", ⟨""⟩, none, some ⟨[("PATH=x", "y")], by decide⟩⟩

/-- The descriptor of the third case of `TestWrapper`: a mapping with `PATH` and `FOO`. -/
def pathFooExecutable : executable :=
  ⟨"source", ⟨""⟩, none, some ⟨[("PATH", "some-path"), ("FOO", "BAR")], by decide⟩⟩

/-- A descriptor whose mapping has both `PATH` and the directive key `<PATH`. -/
def pathBothExecutable : executable :=
  ⟨"source", ⟨""⟩, none, some ⟨[("PATH", "some-path"), ("<PATH", "/other")], by decide⟩⟩

/-- The descriptor of the fourth case of `TestWrapper`: three arguments, no mapping. -/
def argvExecutable : executable :=
  ⟨"source", ⟨""⟩, some ["argb", "arga", "argc"], none⟩

/-- A descriptor without a source. -/
def noSourceExecutable : executable :=
  ⟨"", ⟨"input"⟩, some ["a"], none⟩

/-- No sidecar exists: every `os.Open` fails with "file does not exist". -/
def noSidecars : String → OpenResult :=
  fun path => .notExist ("open " ++ path ++ ": no such file or directory")

/-- A wrapper started as `nvidia-ctk --version` through the search path, with `PATH=/usr/bin`,
installed at `/usr/local/nvidia/toolkit/nvidia-ctk`, on a host whose probe file exists. -/
def ctkProcess (sidecars : String → OpenResult) : Process :=
  ⟨["nvidia-ctk", "--version"], ["PATH=/usr/bin"],
    fun k => if k = "PATH" then "/usr/bin" else "",
    .ok "/usr/local/nvidia/toolkit/nvidia-ctk", sidecars, fun _ => true,
    fun _ => .error "executable file not found in $PATH"⟩

/-- A wrapper started as `nvidia-container-runtime create` on a host without the probe file,
where `runc` is found at `/usr/bin/runc`. -/
def runtimeProcess (sidecars : String → OpenResult) : Process :=
  ⟨["nvidia-container-runtime", "create"], ["PATH=/usr/bin"],
    fun k => if k = "PATH" then "/usr/bin" else "",
    .ok "/usr/local/nvidia/toolkit/nvidia-container-runtime", sidecars, fun _ => false,
    fun name => if name = "runc" then .ok "/usr/bin/runc"
      else .error "executable file not found in $PATH"⟩

/-- The `.argv` sidecar delivers one line and then a read error. -/
def brokenArgv : String → OpenResult :=
  fun path =>
    if path = "/usr/local/nvidia/toolkit/nvidia-ctk.argv" then
      .file "--debug\n" (some "read /usr/local/nvidia/toolkit/nvidia-ctk.argv: input/output error")
    else .notExist ("open " ++ path ++ ": no such file or directory")

/-- The `.argv` sidecar cannot be opened for a reason other than its absence. -/
def deniedArgv : String → OpenResult :=
  fun path =>
    if path = "/usr/local/nvidia/toolkit/nvidia-ctk.argv" then
      .failed "open /usr/local/nvidia/toolkit/nvidia-ctk.argv: permission denied"
    else .notExist ("open " ++ path ++ ": no such file or directory")

/-- A line the scanner of the wrapper hands back exactly as the installer wrote it: no newline
in it, no carriage return at its end, shorter than the scanner's buffer. -/
def PlainLine (l : String) : Prop :=
  '\n' ∉ l.data ∧ l.data.getLast? ≠ some '\r' ∧ l.utf8ByteSize < maxScanTokenSize

instance (l : String) : Decidable (PlainLine l) := by
  unfold PlainLine
  infer_instance

/-- Both sidecars exist with the given texts. -/
def sidecarFiles (program argv envv : String) : String → OpenResult :=
  fun path =>
    if path = program ++ ".argv" then .file argv none
    else if path = program ++ ".envv" then .file envv none
    else .notExist ("open " ++ path ++ ": no such file or directory")

/-- The `.envv` sidecar of `/w/nvidia-ctk` holds the given text; no `.argv` sidecar exists. -/
def envvOnly (envv : String) : String → OpenResult :=
  fun path =>
    if path = "/w/nvidia-ctk.envv" then .file envv none
    else .notExist ("open " ++ path ++ ": no such file or directory")

/-- A descriptor whose only variable has a value that ends in a carriage return. -/
def crExecutable : executable :=
  ⟨"source", ⟨""⟩, none, some ⟨[("FOO", "bar\r")], by decide⟩⟩

/-- The lines of a file: each stretch of text that ends at a newline, and the stretch after the
last newline when it is not empty. -/
def fileLines (content : String) : List String :=
  (rawLines content.data []).map String.mk

/-- A descriptor whose only variable has a value with a newline in it. -/
def newlineValueExecutable : executable :=
  ⟨"source", ⟨""⟩, none, some ⟨[("Z", "1\nA=2")], by decide⟩⟩

/-- No `.argv` sidecar exists, and the `.envv` sidecar of
`/usr/local/nvidia/toolkit/nvidia-ctk` has a second line without `=`. -/
def badEnvv : String → OpenResult :=
  fun path =>
    if path = "/usr/local/nvidia/toolkit/nvidia-ctk.envv" then .file "FOO=a\nb\n" none
    else .notExist ("open " ++ path ++ ": no such file or directory")

/-! ## The order of strings -/

theorem lessEq_total (a b : List Char) : lessEq a b = true ∨ lessEq b a = true := by
  induction a generalizing b with
  | nil => simp [lessEq]
  | cons x xs ih =>
    cases b with
    | nil => simp [lessEq]
    | cons y ys =>
      simp only [lessEq]
      by_cases h1 : x.toNat < y.toNat
      · simp [h1]
      · by_cases h2 : y.toNat < x.toNat
        · simp [h2]
        · simpa [h1, h2] using ih ys

theorem lessEq_antisymm (a b : List Char) (h1 : lessEq a b = true) (h2 : lessEq b a = true) :
    a = b := by
  induction a generalizing b with
  | nil =>
    cases b with
    | nil => rfl
    | cons y ys => simp [lessEq] at h2
  | cons x xs ih =>
    cases b with
    | nil => simp [lessEq] at h1
    | cons y ys =>
      simp only [lessEq] at h1 h2
      by_cases c1 : x.toNat < y.toNat
      · have c2 : ¬ y.toNat < x.toNat := by omega
        simp [c1, c2] at h2
      · by_cases c2 : y.toNat < x.toNat
        · simp [c1, c2] at h1
        · simp only [c1, c2, if_false] at h1 h2
          have hxy : x = y := by
            apply Char.ext
            apply UInt32.ext
            have h3 : x.toNat = y.toNat := by omega
            exact h3
          rw [hxy, ih ys h1 h2]

theorem lessEq_trans (a b c : List Char) (h1 : lessEq a b = true) (h2 : lessEq b c = true) :
    lessEq a c = true := by
  induction a generalizing b c with
  | nil => simp [lessEq]
  | cons x xs ih =>
    cases b with
    | nil => simp [lessEq] at h1
    | cons y ys =>
      cases c with
      | nil => simp [lessEq] at h2
      | cons z zs =>
        simp only [lessEq] at h1 h2 ⊢
        by_cases c1 : x.toNat < y.toNat
        · by_cases c2 : y.toNat < z.toNat
          · have c3 : x.toNat < z.toNat := by omega
            simp [c3]
          · by_cases c3 : z.toNat < y.toNat
            · simp [c2, c3] at h2
            · have c4 : x.toNat < z.toNat := by omega
              simp [c4]
        · by_cases c1b : y.toNat < x.toNat
          · simp [c1, c1b] at h1
          · simp only [c1, c1b, if_false] at h1
            by_cases c2 : y.toNat < z.toNat
            · have c3 : x.toNat < z.toNat := by omega
              simp [c3]
            · by_cases c3 : z.toNat < y.toNat
              · simp [c2, c3] at h2
              · simp only [c2, c3, if_false] at h2
                have e1 : ¬ x.toNat < z.toNat := by omega
                have e2 : ¬ z.toNat < x.toNat := by omega
                simp only [e1, e2, if_false]
                exact ih ys zs h1 h2

theorem stringLE_isTotal : IsTotal String (fun a b => stringLE a b = true) :=
  ⟨fun a b => lessEq_total a.data b.data⟩

theorem stringLE_isTrans : IsTrans String (fun a b => stringLE a b = true) :=
  ⟨fun a b c h1 h2 => lessEq_trans a.data b.data c.data h1 h2⟩

theorem stringLE_isAntisymm : IsAntisymm String (fun a b => stringLE a b = true) :=
  ⟨fun a b h1 h2 => String.ext (lessEq_antisymm a.data b.data h1 h2)⟩

theorem sortStrings_sorted (l : List String) :
    (sortStrings l).Sorted (fun a b => stringLE a b = true) :=
  @List.sorted_insertionSort _ _ _ stringLE_isTotal stringLE_isTrans l

theorem sortStrings_perm (l : List String) : (sortStrings l).Perm l :=
  List.perm_insertionSort _ l

theorem sortStrings_congr {l1 l2 : List String} (h : l1.Perm l2) :
    sortStrings l1 = sortStrings l2 :=
  @List.eq_of_perm_of_sorted _ _ stringLE_isAntisymm _ _
    (((sortStrings_perm l1).trans h).trans (sortStrings_perm l2).symm)
    (sortStrings_sorted l1) (sortStrings_sorted l2)

theorem mem_sortStrings {l : List String} {x : String} : x ∈ sortStrings l ↔ x ∈ l :=
  (sortStrings_perm l).mem_iff

/-! ## Writing a file -/

theorem write_files_self (s : Sys) (path data : String) :
    (s.write path data).files path =
      (s.files path).map (fun f => { f with content := f.content ++ data }) := by
  simp [Sys.write]

theorem foldl_write_contentOf (g : String → String) (path : String) (l : List String) :
    ∀ (s : Sys) (c : String), s.contentOf path = some c →
      (l.foldl (fun st x => st.write path (g x ++ "\n")) s).contentOf path =
        some (c ++ joinLines (l.map g)) := by
  induction l with
  | nil =>
    intro s c h
    simpa [joinLines] using h
  | cons x xs ih =>
    intro s c h
    rw [List.foldl_cons]
    have h1 : (s.write path (g x ++ "\n")).contentOf path = some (c ++ (g x ++ "\n")) := by
      unfold Sys.contentOf at h ⊢
      rw [write_files_self]
      cases hf : s.files path with
      | none => simp [hf] at h
      | some f =>
        simp only [hf, Option.map_some', Option.some.injEq] at h ⊢
        rw [h]
    rw [ih _ _ h1]
    simp [joinLines, String.append_assoc]

theorem openFile_contentOf (s s1 : Sys) (path : String) (perm : Nat)
    (h : s.openFile path perm = .ok s1) : s1.contentOf path = some "" := by
  unfold Sys.openFile at h
  cases he : s.openFileErr path with
  | some err => simp [he] at h
  | none =>
    simp only [he, Except.ok.injEq] at h
    subst h
    simp [Sys.contentOf]

theorem openFile_ok (s : Sys) (path : String) (perm : Nat) (h : s.openFileErr path = none) :
    ∃ s1, s.openFile path perm = .ok s1 := by
  unfold Sys.openFile
  simp [h]

/-! ## The envv sidecar written by the installer -/

theorem rawLines_line (l rest : List Char) (h : '\n' ∉ l) :
    ∀ cur, rawLines (l ++ '\n' :: rest) cur = (cur ++ l) :: rawLines rest [] := by
  induction l with
  | nil =>
    intro cur
    simp [rawLines]
  | cons c cs ih =>
    intro cur
    have hc : c ≠ '\n' := fun hc => h (hc ▸ List.mem_cons_self _ _)
    have hcs : '\n' ∉ cs := fun hcs => h (List.mem_cons_of_mem _ hcs)
    rw [List.cons_append, rawLines, if_neg hc, ih hcs]
    simp

theorem joinLines_data_cons (x : String) (xs : List String) :
    (joinLines (x :: xs)).data = x.data ++ '\n' :: (joinLines xs).data := by
  have e : "\n".data = ['\n'] := rfl
  simp [joinLines, String.data_append, e]

theorem rawLines_joinLines (lines : List String) (h : ∀ l ∈ lines, '\n' ∉ l.data) :
    rawLines (joinLines lines).data [] = lines.map String.data := by
  induction lines with
  | nil => rfl
  | cons x xs ih =>
    rw [joinLines_data_cons, rawLines_line _ _ (h x (List.mem_cons_self _ _)),
      ih (fun l hl => h l (List.mem_cons_of_mem _ hl))]
    simp

theorem writeWrapperEnvv_content (T : Deps) (order : RangeOrder) (e : executable)
    (wrapperPath destFolder : String) (s : Sys)
    (hopen : s.openFileErr (wrapperPath ++ ".envv") = none) :
    (e.writeWrapperEnvv T order wrapperPath destFolder s).1 = none ∧
      (e.writeWrapperEnvv T order wrapperPath destFolder s).2.contentOf (wrapperPath ++ ".envv") =
        some (joinLines (e.envvLines T order destFolder)) := by
  obtain ⟨s1, hs1⟩ := openFile_ok s (wrapperPath ++ ".envv") 0o440 hopen
  have hc := openFile_contentOf s s1 _ _ hs1
  have hw := foldl_write_contentOf (fun x => x) (wrapperPath ++ ".envv")
    (e.envvLines T order destFolder) s1 "" hc
  unfold executable.writeWrapperEnvv
  rw [hs1]
  refine ⟨rfl, ?_⟩
  simpa using hw

theorem envvLines_order_irrelevant (T : Deps) (order1 order2 : RangeOrder) (e : executable)
    (destFolder : String) : e.envvLines T order1 destFolder = e.envvLines T order2 destFolder := by
  unfold executable.envvLines
  apply sortStrings_congr
  exact ((order1.perm _).trans (order2.perm _).symm).map _

theorem mem_envvLines (T : Deps) (order : RangeOrder) (e : executable) (destFolder l : String) :
    l ∈ e.envvLines T order destFolder ↔
      ∃ kv ∈ (e.effectiveEnvm destFolder).entries,
        kv.1 ++ "=" ++ T.newReplacements T.destDirPattern destFolder kv.2 = l := by
  unfold executable.envvLines
  rw [mem_sortStrings, List.mem_map]
  constructor
  · rintro ⟨kv, hkv, h⟩
    exact ⟨kv, (order.perm _).mem_iff.1 hkv, h⟩
  · rintro ⟨kv, hkv, h⟩
    exact ⟨kv, (order.perm _).mem_iff.2 hkv, h⟩

theorem hasPrefix_line_PATH (k v : String) :
    HasPrefix (k ++ "=" ++ v) "PATH=" = true ↔ k = "PATH" ∨ HasPrefix k "PATH=" = true := by
  obtain ⟨l⟩ := k
  have e1 : "PATH=".data = ['P', 'A', 'T', 'H', '='] := rfl
  have e2 : "=".data = ['='] := rfl
  have e3 : "PATH".data = ['P', 'A', 'T', 'H'] := rfl
  rw [String.ext_iff]
  simp only [HasPrefix, String.data_append, e1, e2, e3]
  rcases l with _ | ⟨a, _ | ⟨b, _ | ⟨c, _ | ⟨d, _ | ⟨f, l⟩⟩⟩⟩⟩ <;>
    first
    | (simp [List.isPrefixOf]; done)
    | (simp [List.isPrefixOf]; aesop)

theorem hasPrefix_line_ltPATH (k v : String) :
    HasPrefix (k ++ "=" ++ v) "<PATH" = true ↔ HasPrefix k "<PATH" = true := by
  obtain ⟨l⟩ := k
  have e1 : "<PATH".data = ['<', 'P', 'A', 'T', 'H'] := rfl
  have e2 : "=".data = ['='] := rfl
  simp only [HasPrefix, String.data_append, e1, e2]
  rcases l with _ | ⟨a, _ | ⟨b, _ | ⟨c, _ | ⟨d, _ | ⟨f, l⟩⟩⟩⟩⟩ <;>
    simp [List.isPrefixOf]

theorem get?_eq_none_iff (m : GoMap) (k : String) :
    m.get? k = none ↔ ∀ kv ∈ m.entries, kv.1 ≠ k := by
  unfold GoMap.get?
  simp [List.find?_eq_none]

theorem get?_eq_some_mem (m : GoMap) (k v : String) (h : m.get? k = some v) :
    (k, v) ∈ m.entries := by
  unfold GoMap.get? at h
  rw [Option.map_eq_some'] at h
  obtain ⟨kv, hkv, hv⟩ := h
  have h1 := List.mem_of_find?_eq_some hkv
  have h2 := List.find?_some hkv
  simp only [decide_eq_true_eq] at h2
  obtain ⟨a, b⟩ := kv
  simp only at h2 hv
  subst h2
  subst hv
  exact h1

theorem envEntries_nodup (e : executable) : (e.envEntries.map Prod.fst).Nodup := by
  unfold executable.envEntries
  cases e.envm with
  | none => exact List.nodup_nil
  | some m => exact m.nodup

theorem lookupEnv_some_mem (e : executable) (k v : String) (h : e.lookupEnv k = some v) :
    (k, v) ∈ e.envEntries := by
  unfold executable.lookupEnv at h
  unfold executable.envEntries
  cases he : e.envm with
  | none => simp [he] at h
  | some m =>
    simp only [he, Option.some_bind] at h
    exact get?_eq_some_mem m k v h

theorem effectiveEnvm_entries_noPath (e : executable) (destFolder : String)
    (hpath : e.lookupEnv "PATH" = none) :
    (e.effectiveEnvm destFolder).entries =
      ("<PATH", destFolder) ::
        (e.envEntries.filter (fun kv => kv.1 ≠ "PATH")).filter (fun kv => kv.1 ≠ "<PATH") := by
  unfold executable.lookupEnv at hpath
  unfold executable.effectiveEnvm executable.envEntries
  cases he : e.envm with
  | none => rfl
  | some m =>
    simp only [he, Option.some_bind] at hpath
    simp only [hpath]
    rfl

theorem effectiveEnvm_entries_path (e : executable) (destFolder p : String)
    (hp : e.lookupEnv "PATH" = some p) :
    (e.effectiveEnvm destFolder).entries =
      ("PATH", destFolder ++ ":" ++ p) :: e.envEntries.filter (fun kv => kv.1 ≠ "PATH") := by
  unfold executable.lookupEnv at hp
  unfold executable.effectiveEnvm executable.envEntries
  cases he : e.envm with
  | none => simp [he] at hp
  | some m =>
    simp only [he, Option.some_bind] at hp
    simp only [hp]
    rfl

theorem fileLines_joinLines (lines : List String) (h : ∀ l ∈ lines, '\n' ∉ l.data) :
    fileLines (joinLines lines) = lines := by
  unfold fileLines
  rw [rawLines_joinLines lines h, List.map_map]
  have hid : (String.mk ∘ String.data) = id := by
    funext x
    rfl
  rw [hid, List.map_id]

theorem entryLine_noNewline (k v : String) (hk : '\n' ∉ k.data) (hv : '\n' ∉ v.data) :
    '\n' ∉ (k ++ "=" ++ v).data := by
  have e : "=".data = ['='] := rfl
  rw [String.data_append, String.data_append, e]
  intro h
  rcases List.mem_append.1 h with h1 | h1
  · rcases List.mem_append.1 h1 with h2 | h2
    · exact hk h2
    · revert h2
      decide
  · exact hv h1

theorem envvLines_noNewline (T : Deps) (order : RangeOrder) (e : executable)
    (destFolder : String)
    (hplain : ∀ kv ∈ (e.effectiveEnvm destFolder).entries,
      '\n' ∉ kv.1.data ∧ '\n' ∉ (T.newReplacements T.destDirPattern destFolder kv.2).data) :
    ∀ l ∈ e.envvLines T order destFolder, '\n' ∉ l.data := by
  intro l hl
  obtain ⟨kv, hkv, rfl⟩ := (mem_envvLines T order e destFolder l).1 hl
  exact entryLine_noNewline _ _ (hplain kv hkv).1 (hplain kv hkv).2

/-- When no key and no substituted value of the effective mapping holds a newline, the lines of
the written file are the strings of `envvLines`. -/
theorem writeWrapperEnvv_fileLines (T : Deps) (order : RangeOrder) (e : executable)
    (wrapperPath destFolder : String) (s : Sys)
    (hplain : ∀ kv ∈ (e.effectiveEnvm destFolder).entries,
      '\n' ∉ kv.1.data ∧ '\n' ∉ (T.newReplacements T.destDirPattern destFolder kv.2).data)
    (hopen : s.openFileErr (wrapperPath ++ ".envv") = none) :
    ∃ content,
      (e.writeWrapperEnvv T order wrapperPath destFolder s).2.contentOf
        (wrapperPath ++ ".envv") = some content ∧
      fileLines content = e.envvLines T order destFolder :=
  ⟨_, (writeWrapperEnvv_content T order e wrapperPath destFolder s hopen).2,
    fileLines_joinLines _ (envvLines_noNewline T order e destFolder hplain)⟩

theorem effectiveEnvm_noNewline_noPath (T : Deps) (e : executable) (destFolder : String)
    (hpath : e.lookupEnv "PATH" = none)
    (hnl : ∀ kv ∈ e.envEntries, '\n' ∉ kv.1.data ∧ '\n' ∉ (T.newReplacements T.destDirPattern destFolder kv.2).data)
    (hdest : '\n' ∉ (T.newReplacements T.destDirPattern destFolder destFolder).data) :
    ∀ kv ∈ (e.effectiveEnvm destFolder).entries,
      '\n' ∉ kv.1.data ∧ '\n' ∉ (T.newReplacements T.destDirPattern destFolder kv.2).data := by
  intro kv hkv
  rw [effectiveEnvm_entries_noPath e destFolder hpath] at hkv
  rcases List.mem_cons.1 hkv with h | h
  · subst h
    exact ⟨show '\n' ∉ ("<PATH" : String).data by decide, hdest⟩
  · exact hnl kv (List.mem_filter.1 (List.mem_filter.1 h).1).1

theorem effectiveEnvm_noNewline_path (T : Deps) (e : executable) (destFolder p : String)
    (hpath : e.lookupEnv "PATH" = some p)
    (hnl : ∀ kv ∈ e.envEntries,
      '\n' ∉ kv.1.data ∧ (kv.1 ≠ "PATH" → '\n' ∉ (T.newReplacements T.destDirPattern destFolder kv.2).data))
    (hval : '\n' ∉ (T.newReplacements T.destDirPattern destFolder (destFolder ++ ":" ++ p)).data) :
    ∀ kv ∈ (e.effectiveEnvm destFolder).entries,
      '\n' ∉ kv.1.data ∧ '\n' ∉ (T.newReplacements T.destDirPattern destFolder kv.2).data := by
  intro kv hkv
  rw [effectiveEnvm_entries_path e destFolder p hpath] at hkv
  rcases List.mem_cons.1 hkv with h | h
  · subst h
    exact ⟨show '\n' ∉ ("PATH" : String).data by decide, hval⟩
  · have h2 := List.mem_filter.1 h
    have h3 : kv.1 ≠ "PATH" := by simpa using h2.2
    exact ⟨(hnl kv h2.1).1, (hnl kv h2.1).2 h3⟩

theorem envvLines_noPath_props (T : Deps) (order : RangeOrder) (e : executable)
    (destFolder : String) (hpath : e.lookupEnv "PATH" = none)
    (hkeys : ∀ kv ∈ e.envEntries, HasPrefix kv.1 "PATH=" = false) :
    ("<PATH=" ++ T.newReplacements T.destDirPattern destFolder destFolder) ∈ e.envvLines T order destFolder ∧
    ∀ l ∈ e.envvLines T order destFolder, HasPrefix l "PATH=" = false := by
  have hent := effectiveEnvm_entries_noPath e destFolder hpath
  constructor
  · rw [mem_envvLines]
    refine ⟨("<PATH", destFolder), ?_, rfl⟩
    rw [hent]
    exact List.mem_cons_self _ _
  · intro l hl
    rw [mem_envvLines, hent] at hl
    obtain ⟨kv, hkv, rfl⟩ := hl
    rw [Bool.eq_false_iff]
    intro hpre
    rw [hasPrefix_line_PATH] at hpre
    rcases List.mem_cons.1 hkv with h | h
    · subst h
      change ("<PATH" : String) = "PATH" ∨ HasPrefix "<PATH" "PATH=" = true at hpre
      revert hpre
      decide
    · have h1 := List.mem_filter.1 h
      have h2 := List.mem_filter.1 h1.1
      have h3 : kv.1 ≠ "PATH" := by simpa using h2.2
      rcases hpre with hp | hp
      · exact h3 hp
      · rw [hkeys kv h2.1] at hp
        exact Bool.false_ne_true hp

theorem envvLines_path_props (T : Deps) (order : RangeOrder) (e : executable)
    (destFolder p : String) (hpath : e.lookupEnv "PATH" = some p)
    (hkeys : ∀ kv ∈ e.envEntries,
      HasPrefix kv.1 "PATH=" = false ∧ HasPrefix kv.1 "<PATH" = false) :
    (e.envvLines T order destFolder).filter (fun l => HasPrefix l "PATH=") =
      ["PATH=" ++ T.newReplacements T.destDirPattern destFolder (destFolder ++ ":" ++ p)] ∧
    ∀ l ∈ e.envvLines T order destFolder, HasPrefix l "<PATH" = false := by
  have hent := effectiveEnvm_entries_path e destFolder p hpath
  constructor
  · have hperm : ((e.envvLines T order destFolder).filter (fun l => HasPrefix l "PATH=")).Perm
        (((e.effectiveEnvm destFolder).entries.map (fun kv => kv.1 ++ "=" ++
          T.newReplacements T.destDirPattern destFolder kv.2)).filter
            (fun l => HasPrefix l "PATH=")) := by
      apply List.Perm.filter
      unfold executable.envvLines
      exact (sortStrings_perm _).trans ((order.perm _).map _)
    rw [hent, List.map_cons, List.filter_cons] at hperm
    have hhead : HasPrefix ("PATH" ++ "=" ++
        T.newReplacements T.destDirPattern destFolder (destFolder ++ ":" ++ p)) "PATH=" = true :=
      (hasPrefix_line_PATH _ _).2 (Or.inl rfl)
    have htail : ((e.envEntries.filter (fun kv => kv.1 ≠ "PATH")).map (fun kv => kv.1 ++ "=" ++
          T.newReplacements T.destDirPattern destFolder kv.2)).filter
            (fun l => HasPrefix l "PATH=") = [] := by
      rw [List.filter_eq_nil_iff]
      intro l hl
      obtain ⟨kv, hkv, rfl⟩ := List.mem_map.1 hl
      have h2 := List.mem_filter.1 hkv
      have h3 : kv.1 ≠ "PATH" := by simpa using h2.2
      intro hpre
      rcases (hasPrefix_line_PATH _ _).1 hpre with hp | hp
      · exact h3 hp
      · rw [(hkeys kv h2.1).1] at hp
        exact Bool.false_ne_true hp
    simp only [hhead, if_true, htail] at hperm
    exact List.perm_singleton.1 hperm
  · intro l hl
    rw [mem_envvLines, hent] at hl
    obtain ⟨kv, hkv, rfl⟩ := hl
    rw [Bool.eq_false_iff]
    intro hpre
    rw [hasPrefix_line_ltPATH] at hpre
    rcases List.mem_cons.1 hkv with h | h
    · subst h
      change HasPrefix "PATH" "<PATH" = true at hpre
      revert hpre
      decide
    · have h2 := List.mem_filter.1 h
      rw [(hkeys kv h2.1).2] at hpre
      exact Bool.false_ne_true hpre

/-- C3 fails as stated: the value of `Z` in `newlineValueExecutable` holds a newline, so the
`.envv` file written for it has the three lines `<PATH=/dest`, `Z=1`, `A=2`, which are not in
ascending order and are not a rearrangement of the two entries of the effective mapping. -/
theorem envv_lines_newline_counterexample :
    (newlineValueExecutable.writeWrapperEnvv specDeps RangeOrder.stored "/dest/source" "/dest"
      emptySys).2.contentOf "/dest/source.envv" = some "<PATH=/dest\nZ=1\nA=2\n" ∧
    fileLines "<PATH=/dest\nZ=1\nA=2\n" = ["<PATH=/dest", "Z=1", "A=2"] ∧
    ¬ (fileLines "<PATH=/dest\nZ=1\nA=2\n").Sorted (fun a b => stringLE a b = true) ∧
    (newlineValueExecutable.effectiveEnvm "/dest").entries.map
        (fun kv => kv.1 ++ "=" ++ specDeps.newReplacements specDeps.destDirPattern "/dest" kv.2) =
      ["<PATH=/dest", "Z=1\nA=2"] ∧
    ¬ (fileLines "<PATH=/dest\nZ=1\nA=2\n").Perm
      ((newlineValueExecutable.effectiveEnvm "/dest").entries.map
        (fun kv =>
          kv.1 ++ "=" ++ specDeps.newReplacements specDeps.destDirPattern "/dest" kv.2)) := by
  refine ⟨by decide, by decide, by decide, by decide, ?_⟩
  intro h
  have hlen := h.length_eq
  revert hlen
  decide

/-- C3, amended: for every descriptor and destination folder such that no key and no
substituted value of the effective mapping holds a newline, when the `.envv` file can be opened
`writeWrapperEnvv` reports no error and the lines of the file it writes are sorted in ascending
order of their full text and are a rearrangement of the entries `key=substituted value` of the
effective mapping; every iteration order of the mapping gives the same result. -/
theorem envv_lines_sorted_perm (T : Deps) (order : RangeOrder) (e : executable)
    (wrapperPath destFolder : String) (s : Sys)
    (hplain : ∀ kv ∈ (e.effectiveEnvm destFolder).entries,
      '\n' ∉ kv.1.data ∧ '\n' ∉ (T.newReplacements T.destDirPattern destFolder kv.2).data)
    (hopen : s.openFileErr (wrapperPath ++ ".envv") = none) :
    (e.writeWrapperEnvv T order wrapperPath destFolder s).1 = none ∧
    ∃ content,
      (e.writeWrapperEnvv T order wrapperPath destFolder s).2.contentOf
        (wrapperPath ++ ".envv") = some content ∧
      (fileLines content).Sorted (fun a b => stringLE a b = true) ∧
      (fileLines content).Perm
        ((e.effectiveEnvm destFolder).entries.map (fun kv => kv.1 ++ "=" ++ T.newReplacements T.destDirPattern destFolder kv.2)) ∧
      ∀ order2 : RangeOrder,
        e.writeWrapperEnvv T order2 wrapperPath destFolder s =
          e.writeWrapperEnvv T order wrapperPath destFolder s := by
  obtain ⟨content, hcontent, hlines⟩ :=
    writeWrapperEnvv_fileLines T order e wrapperPath destFolder s hplain hopen
  refine ⟨(writeWrapperEnvv_content T order e wrapperPath destFolder s hopen).1,
    content, hcontent, ?_, ?_, ?_⟩
  · rw [hlines]
    exact sortStrings_sorted _
  · rw [hlines]
    exact (sortStrings_perm _).trans ((order.perm _).map _)
  · intro order2
    unfold executable.writeWrapperEnvv
    rw [envvLines_order_irrelevant T order2 order e destFolder]

theorem envv_lines_sorted_perm_witness :
    (∀ kv ∈ (fooBarExecutable.effectiveEnvm "/dest").entries,
      '\n' ∉ kv.1.data ∧
        '\n' ∉ (specDeps.newReplacements specDeps.destDirPattern "/dest" kv.2).data) ∧
    emptySys.openFileErr ("/dest/source" ++ ".envv") = none ∧
    (fooBarExecutable.writeWrapperEnvv specDeps RangeOrder.backwards "/dest/source" "/dest"
        emptySys).2.contentOf ("/dest/source" ++ ".envv") =
      some "<PATH=/dest\nBAZ=/dest/lib\nFOO=BAR\n" ∧
    fileLines "<PATH=/dest\nBAZ=/dest/lib\nFOO=BAR\n" =
      ["<PATH=/dest", "BAZ=/dest/lib", "FOO=BAR"] ∧
    ∃ content,
      (fooBarExecutable.writeWrapperEnvv specDeps RangeOrder.backwards "/dest/source" "/dest"
        emptySys).2.contentOf ("/dest/source" ++ ".envv") = some content ∧
      (fileLines content).Sorted (fun a b => stringLE a b = true) ∧
      (fileLines content).Perm
        ((fooBarExecutable.effectiveEnvm "/dest").entries.map
          (fun kv =>
            kv.1 ++ "=" ++ specDeps.newReplacements specDeps.destDirPattern "/dest" kv.2)) ∧
      ∀ order2 : RangeOrder,
        fooBarExecutable.writeWrapperEnvv specDeps order2 "/dest/source" "/dest" emptySys =
          fooBarExecutable.writeWrapperEnvv specDeps RangeOrder.backwards "/dest/source" "/dest"
            emptySys :=
  ⟨by decide, by decide, by decide, by decide,
    (envv_lines_sorted_perm specDeps RangeOrder.backwards fooBarExecutable "/dest/source" "/dest"
      emptySys (by decide) (by decide)).2⟩

/-- C1 fails as stated: the mapping of `pathEqKeyExecutable` has no key `PATH`, yet the `.envv`
file written for it has the line `PATH=x=y`, which starts with the literal `PATH=`. -/
theorem envv_noPath_literal_line_counterexample :
    pathEqKeyExecutable.lookupEnv "PATH" = none ∧
    (pathEqKeyExecutable.writeWrapperEnvv specDeps RangeOrder.stored "/dest/source" "/dest"
      emptySys).2.contentOf "/dest/source.envv" = some "<PATH=/dest\nPATH=x=y\n" ∧
    fileLines "<PATH=/dest\nPATH=x=y\n" = ["<PATH=/dest", "PATH=x=y"] ∧
    ¬ (∀ l ∈ fileLines "<PATH=/dest\nPATH=x=y\n", HasPrefix l "PATH=" = false) := by
  decide

/-- C1, amended: for every destination folder `D` and every descriptor whose mapping is absent
or has no key `PATH` and no key beginning with `PATH=`, and whose keys, substituted values and
substituted `D` hold no newline, when the `.envv` file can be opened `writeWrapperEnvv` reports
no error and the file it writes has the line `<PATH=` followed by the substituted `D`, which
is `<PATH=D` when the substitution leaves `D` as it is, and has no line that starts with the
literal `PATH=`. -/
theorem envv_noPath_directive (T : Deps) (order : RangeOrder) (e : executable)
    (wrapperPath destFolder : String) (s : Sys)
    (hpath : e.lookupEnv "PATH" = none)
    (hkeys : ∀ kv ∈ e.envEntries, HasPrefix kv.1 "PATH=" = false)
    (hnl : ∀ kv ∈ e.envEntries, '\n' ∉ kv.1.data ∧ '\n' ∉ (T.newReplacements T.destDirPattern destFolder kv.2).data)
    (hdest : '\n' ∉ (T.newReplacements T.destDirPattern destFolder destFolder).data)
    (hopen : s.openFileErr (wrapperPath ++ ".envv") = none) :
    (e.writeWrapperEnvv T order wrapperPath destFolder s).1 = none ∧
    ∃ content,
      (e.writeWrapperEnvv T order wrapperPath destFolder s).2.contentOf
        (wrapperPath ++ ".envv") = some content ∧
      ("<PATH=" ++ T.newReplacements T.destDirPattern destFolder destFolder) ∈ fileLines content ∧
      (T.newReplacements T.destDirPattern destFolder destFolder = destFolder → ("<PATH=" ++ destFolder) ∈ fileLines content) ∧
      ∀ l ∈ fileLines content, HasPrefix l "PATH=" = false := by
  obtain ⟨content, hcontent, hlines⟩ :=
    writeWrapperEnvv_fileLines T order e wrapperPath destFolder s
      (effectiveEnvm_noNewline_noPath T e destFolder hpath hnl hdest) hopen
  have hprops := envvLines_noPath_props T order e destFolder hpath hkeys
  refine ⟨(writeWrapperEnvv_content T order e wrapperPath destFolder s hopen).1,
    content, hcontent, ?_, ?_, ?_⟩
  · rw [hlines]
    exact hprops.1
  · intro hid
    have h1 := hprops.1
    rw [hid] at h1
    rw [hlines]
    exact h1
  · rw [hlines]
    exact hprops.2

theorem envv_noPath_directive_witness :
    fooBarExecutable.lookupEnv "PATH" = none ∧
    (∀ kv ∈ fooBarExecutable.envEntries, HasPrefix kv.1 "PATH=" = false) ∧
    specDeps.newReplacements specDeps.destDirPattern "/dest" "/dest" = "/dest" ∧
    (fooBarExecutable.writeWrapperEnvv specDeps RangeOrder.stored "/dest/source" "/dest"
        emptySys).2.contentOf ("/dest/source" ++ ".envv") =
      some "<PATH=/dest\nBAZ=/dest/lib\nFOO=BAR\n" ∧
    ∃ content,
      (fooBarExecutable.writeWrapperEnvv specDeps RangeOrder.stored "/dest/source" "/dest"
        emptySys).2.contentOf ("/dest/source" ++ ".envv") = some content ∧
      ("<PATH=" ++ specDeps.newReplacements specDeps.destDirPattern "/dest" "/dest") ∈
        fileLines content ∧
      (specDeps.newReplacements specDeps.destDirPattern "/dest" "/dest" = "/dest" →
        ("<PATH=" ++ "/dest") ∈ fileLines content) ∧
      ∀ l ∈ fileLines content, HasPrefix l "PATH=" = false :=
  ⟨by decide, by decide, by decide, by decide,
    (envv_noPath_directive specDeps RangeOrder.stored fooBarExecutable "/dest/source" "/dest"
      emptySys (by decide) (by decide) (by decide) (by decide) (by decide)).2⟩

/-- C2 fails as stated: the mapping of `pathBothExecutable` has `PATH = some-path` and the
directive key `<PATH`; the `.envv` file written for it has both a literal `PATH=` line and a
line starting with `<PATH`. -/
theorem envv_path_both_forms_counterexample :
    pathBothExecutable.lookupEnv "PATH" = some "some-path" ∧
    (pathBothExecutable.writeWrapperEnvv specDeps RangeOrder.stored "/dest/source" "/dest"
      emptySys).2.contentOf "/dest/source.envv" =
        some "<PATH=/other\nPATH=/dest:some-path\n" ∧
    fileLines "<PATH=/other\nPATH=/dest:some-path\n" =
      ["<PATH=/other", "PATH=/dest:some-path"] ∧
    ¬ (∀ l ∈ fileLines "<PATH=/other\nPATH=/dest:some-path\n",
        HasPrefix l "<PATH" = false) := by
  decide

/-- C2, amended: for every destination folder `D` and every descriptor with `envm["PATH"] = p`
and no key beginning with `PATH=` or with `<PATH`, whose keys, substituted values of the keys
other than `PATH`, and substitution of `D:p` hold no newline, when the `.envv` file can be
opened `writeWrapperEnvv` reports no error and the file it writes has exactly one line that
starts with `PATH=`, namely `PATH=` followed by the substitution of `D:p`, which is `PATH=D:p`
when the substitution leaves `D:p` as it is, and has no line that starts with `<PATH`. -/
theorem envv_path_literal (T : Deps) (order : RangeOrder) (e : executable)
    (wrapperPath destFolder p : String) (s : Sys)
    (hpath : e.lookupEnv "PATH" = some p)
    (hkeys : ∀ kv ∈ e.envEntries,
      HasPrefix kv.1 "PATH=" = false ∧ HasPrefix kv.1 "<PATH" = false)
    (hnl : ∀ kv ∈ e.envEntries,
      '\n' ∉ kv.1.data ∧ (kv.1 ≠ "PATH" → '\n' ∉ (T.newReplacements T.destDirPattern destFolder kv.2).data))
    (hval : '\n' ∉ (T.newReplacements T.destDirPattern destFolder (destFolder ++ ":" ++ p)).data)
    (hopen : s.openFileErr (wrapperPath ++ ".envv") = none) :
    (e.writeWrapperEnvv T order wrapperPath destFolder s).1 = none ∧
    ∃ content,
      (e.writeWrapperEnvv T order wrapperPath destFolder s).2.contentOf
        (wrapperPath ++ ".envv") = some content ∧
      (fileLines content).filter (fun l => HasPrefix l "PATH=") =
        ["PATH=" ++ T.newReplacements T.destDirPattern destFolder (destFolder ++ ":" ++ p)] ∧
      (T.newReplacements T.destDirPattern destFolder (destFolder ++ ":" ++ p) = destFolder ++ ":" ++ p →
        (fileLines content).filter (fun l => HasPrefix l "PATH=") =
          ["PATH=" ++ destFolder ++ ":" ++ p]) ∧
      ∀ l ∈ fileLines content, HasPrefix l "<PATH" = false := by
  obtain ⟨content, hcontent, hlines⟩ :=
    writeWrapperEnvv_fileLines T order e wrapperPath destFolder s
      (effectiveEnvm_noNewline_path T e destFolder p hpath hnl hval) hopen
  have hprops := envvLines_path_props T order e destFolder p hpath hkeys
  refine ⟨(writeWrapperEnvv_content T order e wrapperPath destFolder s hopen).1,
    content, hcontent, ?_, ?_, ?_⟩
  · rw [hlines]
    exact hprops.1
  · intro hid
    rw [hlines, hprops.1, hid]
    simp only [String.append_assoc]
  · rw [hlines]
    exact hprops.2

theorem envv_path_literal_witness :
    pathFooExecutable.lookupEnv "PATH" = some "some-path" ∧
    (∀ kv ∈ pathFooExecutable.envEntries,
      HasPrefix kv.1 "PATH=" = false ∧ HasPrefix kv.1 "<PATH" = false) ∧
    specDeps.newReplacements specDeps.destDirPattern "/dest" ("/dest" ++ ":" ++ "some-path") =
      "/dest" ++ ":" ++ "some-path" ∧
    (pathFooExecutable.writeWrapperEnvv specDeps RangeOrder.stored "/dest/source" "/dest"
        emptySys).2.contentOf ("/dest/source" ++ ".envv") =
      some "FOO=BAR\nPATH=/dest:some-path\n" ∧
    ∃ content,
      (pathFooExecutable.writeWrapperEnvv specDeps RangeOrder.stored "/dest/source" "/dest"
        emptySys).2.contentOf ("/dest/source" ++ ".envv") = some content ∧
      (fileLines content).filter (fun l => HasPrefix l "PATH=") =
        ["PATH=" ++ specDeps.newReplacements specDeps.destDirPattern "/dest"
          ("/dest" ++ ":" ++ "some-path")] ∧
      (specDeps.newReplacements specDeps.destDirPattern "/dest"
          ("/dest" ++ ":" ++ "some-path") = "/dest" ++ ":" ++ "some-path" →
        (fileLines content).filter (fun l => HasPrefix l "PATH=") =
          ["PATH=" ++ "/dest" ++ ":" ++ "some-path"]) ∧
      ∀ l ∈ fileLines content, HasPrefix l "<PATH" = false :=
  ⟨by decide, by decide, by decide, by decide,
    (envv_path_literal specDeps RangeOrder.stored pathFooExecutable "/dest/source" "/dest"
      "some-path" emptySys (by decide) (by decide) (by decide) (by decide) (by decide)).2⟩

/-! ## The argv sidecar written by the installer -/

/-- C4: `writeWrapperArgv` leaves the file system as it is (no `.argv` file is created) and
reports no error when `argv` is nil; for a present `argv`, when the `.argv` file can be opened,
it reports no error and the file holds exactly the arguments in their original order, each with
the path-template substitution for the destination folder applied and each terminated by one
newline; for a present but empty `argv` the file exists and is empty. -/
theorem argv_sidecar_written (T : Deps) (e : executable) (wrapperPath destFolder : String)
    (s : Sys) :
    (e.argv = none → e.writeWrapperArgv T wrapperPath destFolder s = (none, s)) ∧
    (∀ args, e.argv = some args → s.openFileErr (wrapperPath ++ ".argv") = none →
      (e.writeWrapperArgv T wrapperPath destFolder s).1 = none ∧
      (e.writeWrapperArgv T wrapperPath destFolder s).2.contentOf (wrapperPath ++ ".argv") =
        some (joinLines (args.map (T.newReplacements T.destDirPattern destFolder)))) ∧
    (e.argv = some [] → s.openFileErr (wrapperPath ++ ".argv") = none →
      (e.writeWrapperArgv T wrapperPath destFolder s).2.contentOf (wrapperPath ++ ".argv") =
        some "") := by
  have key : ∀ args, e.argv = some args → s.openFileErr (wrapperPath ++ ".argv") = none →
      (e.writeWrapperArgv T wrapperPath destFolder s).1 = none ∧
      (e.writeWrapperArgv T wrapperPath destFolder s).2.contentOf (wrapperPath ++ ".argv") =
        some (joinLines (args.map (T.newReplacements T.destDirPattern destFolder))) := by
    intro args hargs hopen
    obtain ⟨s1, hs1⟩ := openFile_ok s (wrapperPath ++ ".argv") 0o440 hopen
    have hc := openFile_contentOf s s1 _ _ hs1
    have hw := foldl_write_contentOf (T.newReplacements T.destDirPattern destFolder)
      (wrapperPath ++ ".argv") args s1 "" hc
    unfold executable.writeWrapperArgv
    simp only [hargs, hs1]
    refine ⟨trivial, ?_⟩
    simpa using hw
  refine ⟨?_, key, ?_⟩
  · intro h
    unfold executable.writeWrapperArgv
    simp only [h]
  · intro h hopen
    exact (key [] h hopen).2

theorem argv_sidecar_written_witness :
    argvExecutable.argv = some ["argb", "arga", "argc"] ∧
    emptySys.openFileErr ("/dest/source" ++ ".argv") = none ∧
    (argvExecutable.writeWrapperArgv specDeps "/dest/source" "/dest" emptySys).2.contentOf
        ("/dest/source" ++ ".argv") =
      some (joinLines (["argb", "arga", "argc"].map
        (specDeps.newReplacements specDeps.destDirPattern "/dest"))) ∧
    joinLines (["argb", "arga", "argc"].map
        (specDeps.newReplacements specDeps.destDirPattern "/dest")) = "argb\narga\nargc\n" :=
  ⟨by decide, by decide,
    ((argv_sidecar_written specDeps argvExecutable "/dest/source" "/dest" emptySys).2.1
      ["argb", "arga", "argc"] (by decide) (by decide)).2,
    by decide⟩

/-! ## install -/

/-- C8: whenever the destination folder is empty or the source of the descriptor is empty,
`install` returns an error together with the empty wrapper path and leaves the file system as
it was, whatever the other fields of the descriptor are. -/
theorem install_rejects_empty (T : Deps) (order : RangeOrder) (e : executable)
    (destFolder : String) (s : Sys) (h : destFolder = "" ∨ e.source = "") :
    ∃ err, e.install T order destFolder s = (("", some err), s) := by
  unfold executable.install
  by_cases hd : destFolder = ""
  · refine ⟨"destination folder must be specified", ?_⟩
    simp only [hd, if_true]
  · have hs : e.source = "" := h.resolve_left hd
    refine ⟨"source executable must be specified", ?_⟩
    simp only [hd, hs, if_true, if_false]

theorem install_rejects_empty_witness :
    (("/dest" : String) = "" ∨ noSourceExecutable.source = "") ∧
    ∃ err, noSourceExecutable.install specDeps RangeOrder.stored "/dest" emptySys =
      (("", some err), emptySys) :=
  ⟨by decide,
    install_rejects_empty specDeps RangeOrder.stored noSourceExecutable "/dest" emptySys
      (by decide)⟩

/-! ## The scanner of the wrapper -/

theorem scanTokens_plain (lines : List String) (h : ∀ l ∈ lines, PlainLine l) :
    scanTokens (lines.map String.data) = (lines, false) := by
  induction lines with
  | nil => rfl
  | cons x xs ih =>
    have hx := h x (List.mem_cons_self _ _)
    have ih1 := ih (fun l hl => h l (List.mem_cons_of_mem _ hl))
    have hlen : ¬ maxScanTokenSize ≤ (String.mk x.data).utf8ByteSize := by
      have := hx.2.2
      show ¬ maxScanTokenSize ≤ x.utf8ByteSize
      omega
    have hcr : dropCR x.data = x.data := by
      unfold dropCR
      rw [if_neg hx.2.1]
    rw [List.map_cons, scanTokens, if_neg hlen, ih1, hcr]

/-- A file of plain lines, each terminated by a newline, is scanned back line by line. -/
theorem scan_joinLines (lines : List String) (h : ∀ l ∈ lines, PlainLine l) :
    scan (joinLines lines) none = ⟨lines, none⟩ := by
  unfold scan
  rw [rawLines_joinLines lines (fun l hl => (h l hl).1), scanTokens_plain lines h]
  rfl

/-! ## makeArgv -/

/-- C5 fails as stated: started as `nvidia-ctk --version` while the resolved path of the wrapper
is `/usr/local/nvidia/toolkit/nvidia-ctk` and there is no `.argv` sidecar, `makeArgv` returns
`nvidia-ctk.real` as argument 0, not the resolved path followed by `.real`. -/
theorem makeArgv_arg0_counterexample :
    (ctkProcess noSidecars).osExecutable = .ok "/usr/local/nvidia/toolkit/nvidia-ctk" ∧
    (makeArgv (ctkProcess noSidecars) "/usr/local/nvidia/toolkit/nvidia-ctk").2 =
      .ok ["nvidia-ctk.real", "--version"] ∧
    (makeArgv (ctkProcess noSidecars) "/usr/local/nvidia/toolkit/nvidia-ctk").2 ≠
      .ok ["/usr/local/nvidia/toolkit/nvidia-ctk" ++ ".real", "--version"] := by
  decide

/-- C5, amended: for every wrapper path `W` and every original argument vector `arg0 :: rest`,
`makeArgv` returns `[arg0 + ".real"]` followed by `rest` when `W.argv` does not exist, and
`[arg0 + ".real"]` followed by the scanned lines of `W.argv` in file order followed by `rest`
when it exists and is scanned without error; for a file of plain newline-terminated lines the
scanned lines are those lines. Argument 0 is the original argument 0 followed by `.real`. -/
theorem makeArgv_result (p : Process) (program arg0 : String) (rest : List String)
    (hargs : p.args = arg0 :: rest) :
    (∀ err, p.osOpen (program ++ ".argv") = .notExist err →
      (makeArgv p program).2 = .ok ((arg0 ++ ".real") :: rest)) ∧
    (∀ data, p.osOpen (program ++ ".argv") = .file data none → (scan data none).err = none →
      (makeArgv p program).2 = .ok ((arg0 ++ ".real") :: ((scan data none).tokens ++ rest))) ∧
    (∀ lines, (∀ l ∈ lines, PlainLine l) →
      p.osOpen (program ++ ".argv") = .file (joinLines lines) none →
      (makeArgv p program).2 = .ok ((arg0 ++ ".real") :: (lines ++ rest))) := by
  have key : ∀ data, p.osOpen (program ++ ".argv") = .file data none →
      (scan data none).err = none →
      (makeArgv p program).2 = .ok ((arg0 ++ ".real") :: ((scan data none).tokens ++ rest)) := by
    intro data hopen herr
    unfold makeArgv
    simp only [hargs, hopen, herr]
    simp
  refine ⟨?_, key, ?_⟩
  · intro err hopen
    unfold makeArgv
    simp only [hargs, hopen]
    simp
  · intro lines hplain hopen
    have hs := scan_joinLines lines hplain
    have h1 := key (joinLines lines) hopen (by rw [hs])
    rw [hs] at h1
    exact h1

theorem makeArgv_result_witness :
    (ctkProcess (sidecarFiles "/w/nvidia-ctk" "--debug\n--quiet\n" "")).args =
      "nvidia-ctk" :: ["--version"] ∧
    (∀ l ∈ ["--debug", "--quiet"], PlainLine l) ∧
    (makeArgv (ctkProcess (sidecarFiles "/w/nvidia-ctk" "--debug\n--quiet\n" ""))
        "/w/nvidia-ctk").2 =
      .ok (("nvidia-ctk" ++ ".real") :: (["--debug", "--quiet"] ++ ["--version"])) :=
  ⟨by decide, by decide,
    (makeArgv_result (ctkProcess (sidecarFiles "/w/nvidia-ctk" "--debug\n--quiet\n" ""))
      "/w/nvidia-ctk" "nvidia-ctk" ["--version"] (by decide)).2.2 ["--debug", "--quiet"]
      (by decide) (by decide)⟩

/-- C9 fails as stated: when the `.argv` sidecar opens but reading it fails, `makeArgv` ends the
process with `log.Fatalf` instead of returning the fallback argv, and `main` never reaches the
process replacement. -/
theorem makeArgv_read_error_counterexample :
    (ctkProcess brokenArgv).osOpen ("/usr/local/nvidia/toolkit/nvidia-ctk" ++ ".argv") =
      .file "--debug\n"
        (some "read /usr/local/nvidia/toolkit/nvidia-ctk.argv: input/output error") ∧
    (makeArgv (ctkProcess brokenArgv) "/usr/local/nvidia/toolkit/nvidia-ctk").2 =
      .error (.fatal ("failed to read argv file: " ++
        "read /usr/local/nvidia/toolkit/nvidia-ctk.argv: input/output error")) ∧
    (makeArgv (ctkProcess brokenArgv) "/usr/local/nvidia/toolkit/nvidia-ctk").2 ≠
      .ok ["nvidia-ctk.real", "--version"] ∧
    (main (ctkProcess brokenArgv)).2 =
      .fatal ("failed to read argv file: " ++
        "read /usr/local/nvidia/toolkit/nvidia-ctk.argv: input/output error") := by
  decide

/-- C9, amended: in `makeArgv`, every error of opening the `.argv` sidecar other than "file does
not exist" is non-fatal: it is logged, the fallback argv `[arg0 + ".real"]` followed by the
original arguments 1..N is returned, and `main` goes on to the process replacement with it
whenever the environment is reconstructed. An error while reading the lines of the opened file
(a read error, or a line that does not fit the scanner's buffer) is fatal: `makeArgv` ends the
process with `log.Fatalf`. -/
theorem makeArgv_errors (p : Process) (program arg0 : String) (rest : List String)
    (hargs : p.args = arg0 :: rest) :
    (∀ err, p.osOpen (program ++ ".argv") = .failed err →
      makeArgv p program =
        ([.opened (program ++ ".argv"), .log ("failed to open argv file: " ++ err)],
          .ok ((arg0 ++ ".real") :: rest)) ∧
      (p.osExecutable = .ok program →
        (isRuntimeWrapper program && !isNvidiaModuleLoaded p) = false →
        ∀ ev envv, makeEnvv p program = (ev, .ok envv) →
          main p =
            ([.opened (program ++ ".argv"), .log ("failed to open argv file: " ++ err)] ++ ev,
              .exec (program ++ ".real") ((arg0 ++ ".real") :: rest) envv))) ∧
    (∀ data readErr err, p.osOpen (program ++ ".argv") = .file data readErr →
      (scan data readErr).err = some err →
      makeArgv p program =
        ([.opened (program ++ ".argv")], .error (.fatal ("failed to read argv file: " ++ err)))) ∧
    (∀ data err, p.osOpen (program ++ ".argv") = .file data (some err) →
      ∃ msg, (makeArgv p program).2 = .error (.fatal msg)) := by
  have hfailed : ∀ err, p.osOpen (program ++ ".argv") = .failed err →
      makeArgv p program =
        ([.opened (program ++ ".argv"), .log ("failed to open argv file: " ++ err)],
          .ok ((arg0 ++ ".real") :: rest)) := by
    intro err hopen
    unfold makeArgv
    simp only [hargs, hopen]
    simp
  have hread : ∀ data readErr err, p.osOpen (program ++ ".argv") = .file data readErr →
      (scan data readErr).err = some err →
      makeArgv p program =
        ([.opened (program ++ ".argv")],
          .error (.fatal ("failed to read argv file: " ++ err))) := by
    intro data readErr err hopen herr
    unfold makeArgv
    simp only [hargs, hopen, herr]
  refine ⟨?_, hread, ?_⟩
  · intro err hopen
    refine ⟨hfailed err hopen, ?_⟩
    intro hexe hredirect ev envv henvv
    unfold main
    simp only [hexe, hredirect, hfailed err hopen, henvv]
    simp
  · intro data err hopen
    have herr : ∃ e2, (scan data (some err)).err = some e2 := by
      unfold scan
      by_cases h : (scanTokens (rawLines data.data [])).2 = true
      · exact ⟨"bufio.Scanner: token too long", by simp only [h, if_true]⟩
      · exact ⟨err, by simp only [h]; rfl⟩
    obtain ⟨e2, he2⟩ := herr
    exact ⟨_, by rw [hread data (some err) e2 hopen he2]⟩

theorem makeArgv_errors_witness :
    (ctkProcess deniedArgv).args = "nvidia-ctk" :: ["--version"] ∧
    (ctkProcess deniedArgv).osOpen ("/usr/local/nvidia/toolkit/nvidia-ctk" ++ ".argv") =
      .failed "open /usr/local/nvidia/toolkit/nvidia-ctk.argv: permission denied" ∧
    makeArgv (ctkProcess deniedArgv) "/usr/local/nvidia/toolkit/nvidia-ctk" =
      ([.opened ("/usr/local/nvidia/toolkit/nvidia-ctk" ++ ".argv"),
        .log ("failed to open argv file: " ++
          "open /usr/local/nvidia/toolkit/nvidia-ctk.argv: permission denied")],
        .ok (("nvidia-ctk" ++ ".real") :: ["--version"])) :=
  ⟨by decide, by decide,
    ((makeArgv_errors (ctkProcess deniedArgv) "/usr/local/nvidia/toolkit/nvidia-ctk"
      "nvidia-ctk" ["--version"] (by decide)).1
      "open /usr/local/nvidia/toolkit/nvidia-ctk.argv: permission denied" (by decide)).1⟩

/-! ## makeEnvv -/

theorem splitEq_kv (k v : List Char) (h : '=' ∉ k) :
    splitEq (k ++ '=' :: v) = (k, some v) := by
  induction k with
  | nil => simp [splitEq]
  | cons c cs ih =>
    have hc : c ≠ '=' := fun hc => h (hc ▸ List.mem_cons_self _ _)
    have hcs : '=' ∉ cs := fun hcs => h (List.mem_cons_of_mem _ hcs)
    rw [List.cons_append, splitEq, if_neg hc, ih hcs]

theorem line_data (k v : String) : (k ++ "=" ++ v).data = k.data ++ '=' :: v.data := by
  have e : "=".data = ['='] := rfl
  simp [String.data_append, e]

theorem resolveLine_kv (p : Process) (k v : String) (h : '=' ∉ k.data) :
    resolveLine p (k ++ "=" ++ v) = some (resolvedEntry p k v) := by
  unfold resolveLine resolvedEntry
  rw [line_data, splitEq_kv _ _ h]
  have hk : String.mk k.data = k := rfl
  have hv : String.mk v.data = v := rfl
  simp only [hk, hv]
  cases h1 : HasPrefix k "<" <;> cases h2 : HasPrefix k ">" <;> simp [String.append_assoc]

theorem resolveLines_kvs (p : Process) (kvs : List (String × String))
    (h : ∀ kv ∈ kvs, '=' ∉ kv.1.data) :
    resolveLines p (kvs.map (fun kv => kv.1 ++ "=" ++ kv.2)) =
      some (kvs.map (fun kv => resolvedEntry p kv.1 kv.2)) := by
  induction kvs with
  | nil => rfl
  | cons x xs ih =>
    rw [List.map_cons, resolveLines, resolveLine_kv p _ _ (h x (List.mem_cons_self _ _)),
      ih (fun kv hkv => h kv (List.mem_cons_of_mem _ hkv))]
    rfl

/-- C6 fails as stated: for the sidecar text `FOO` followed by a newline, a line without `=`,
`makeEnvv` returns nothing; the index `kv[1]` is out of range and the wrapper panics. -/
theorem makeEnvv_line_without_eq_counterexample :
    (ctkProcess (envvOnly "FOO\n")).osOpen ("/w/nvidia-ctk" ++ ".envv") = .file "FOO\n" none ∧
    (makeEnvv (ctkProcess (envvOnly "FOO\n")) "/w/nvidia-ctk").2 = .error .panic := by
  decide

/-- C6, amended: for every `.envv` sidecar that is scanned without error and whose lines each
contain `=`, so that they are `key + "=" + value` with no `=` in the key, and for every live
environment, `makeEnvv` returns the resolved entries in file order followed by the full
original environment, where a line resolves to `K=value:env[K]` for the key `<K`, to
`K=env[K]:value` for the key `>K`, and to itself otherwise, `env[K]` being the live value.
When the sidecar is absent the result is the original environment unchanged. -/
theorem makeEnvv_result (p : Process) (program : String) :
    (∀ err, p.osOpen (program ++ ".envv") = .notExist err →
      (makeEnvv p program).2 = .ok p.environ) ∧
    (∀ data (kvs : List (String × String)),
      p.osOpen (program ++ ".envv") = .file data none →
      (scan data none).err = none →
      (scan data none).tokens = kvs.map (fun kv => kv.1 ++ "=" ++ kv.2) →
      (∀ kv ∈ kvs, '=' ∉ kv.1.data) →
      (makeEnvv p program).2 =
        .ok (kvs.map (fun kv => resolvedEntry p kv.1 kv.2) ++ p.environ)) := by
  constructor
  · intro err hopen
    unfold makeEnvv
    simp only [hopen]
  · intro data kvs hopen herr htok hkeys
    unfold makeEnvv
    simp only [hopen, htok, resolveLines_kvs p kvs hkeys, herr]

theorem makeEnvv_result_witness :
    (ctkProcess (envvOnly ">PATH=/extra\n")).osOpen ("/w/nvidia-ctk" ++ ".envv") =
      .file ">PATH=/extra\n" none ∧
    (scan ">PATH=/extra\n" none).err = none ∧
    (scan ">PATH=/extra\n" none).tokens =
      [(">PATH", "/extra")].map (fun kv => kv.1 ++ "=" ++ kv.2) ∧
    (∀ kv ∈ [((">PATH" : String), ("/extra" : String))], '=' ∉ kv.1.data) ∧
    (makeEnvv (ctkProcess (envvOnly ">PATH=/extra\n")) "/w/nvidia-ctk").2 =
      .ok ([(">PATH", "/extra")].map
        (fun kv => resolvedEntry (ctkProcess (envvOnly ">PATH=/extra\n")) kv.1 kv.2) ++
          (ctkProcess (envvOnly ">PATH=/extra\n")).environ) ∧
    [((">PATH" : String), ("/extra" : String))].map
        (fun kv => resolvedEntry (ctkProcess (envvOnly ">PATH=/extra\n")) kv.1 kv.2) =
      ["PATH=/usr/bin:/extra"] :=
  ⟨by decide, by decide, by decide, by decide,
    (makeEnvv_result (ctkProcess (envvOnly ">PATH=/extra\n")) "/w/nvidia-ctk").2
      ">PATH=/extra\n" [(">PATH", "/extra")] (by decide) (by decide) (by decide) (by decide),
    by decide⟩

/-! ## main -/

theorem makeArgv_never_exec (p : Process) (program prog : String) (argv envv : List String) :
    (makeArgv p program).2 ≠ .error (.exec prog argv envv) := by
  unfold makeArgv
  cases p.args with
  | nil => simp
  | cons arg0 rest =>
    cases p.osOpen (program ++ ".argv") with
    | notExist err => simp
    | failed err => simp
    | file data readErr =>
      cases h : (scan data readErr).err with
      | none => simp [h]
      | some err => simp [h]

theorem makeEnvv_never_exec (p : Process) (program prog : String) (argv envv : List String) :
    (makeEnvv p program).2 ≠ .error (.exec prog argv envv) := by
  unfold makeEnvv
  cases p.osOpen (program ++ ".envv") with
  | notExist err => simp
  | failed err => simp
  | file data readErr =>
    cases h1 : resolveLines p (scan data readErr).tokens with
    | none => simp [h1]
    | some env =>
      cases h : (scan data readErr).err with
      | none => simp [h1, h]
      | some err => simp [h1, h]

theorem isRuntimeWrapper_iff (program : String) :
    isRuntimeWrapper program = true ↔
      (filepathBase program = "nvidia-container-runtime" ∨
        filepathBase program = "nvidia-container-runtime.cdi" ∨
        filepathBase program = "nvidia-container-runtime.legacy") := by
  unfold isRuntimeWrapper
  simp [or_assoc]

/-- C7 fails as stated: `nvidia-ctk` is not a runtime-wrapper name, yet with an `.envv` sidecar
whose second line has no `=` the wrapper does not execute `W.real`: `main` opens both sidecars
and ends in a panic. -/
theorem main_dispatch_panic_counterexample :
    (ctkProcess badEnvv).osExecutable = .ok "/usr/local/nvidia/toolkit/nvidia-ctk" ∧
    ¬ (filepathBase "/usr/local/nvidia/toolkit/nvidia-ctk" = "nvidia-container-runtime" ∨
      filepathBase "/usr/local/nvidia/toolkit/nvidia-ctk" = "nvidia-container-runtime.cdi" ∨
      filepathBase "/usr/local/nvidia/toolkit/nvidia-ctk" = "nvidia-container-runtime.legacy") ∧
    main (ctkProcess badEnvv) =
      ([.opened "/usr/local/nvidia/toolkit/nvidia-ctk.argv",
        .opened "/usr/local/nvidia/toolkit/nvidia-ctk.envv"], .panic) := by
  decide

/-- C7, amended: let `W` be the resolved path of the wrapper and `arg0 :: rest` the original
arguments. When the base name of `W` is one of the three runtime-wrapper names and the probe
file cannot be found, and `runc` is located, `main` calls `unix.Exec` on the located binary
with the argv `runc` followed by `rest` and the original environment, having logged one line
and opened no file, so neither sidecar is read. For every other base name, or when the probe
file is present, `main` does not redirect but runs `makeArgv` and then `makeEnvv`: when both
return it calls `unix.Exec` on `W.real` with the reconstructed argv and envv, and every
`unix.Exec` it performs is that call; with both sidecars absent this is the argv
`arg0.real :: rest` and the original environment; when `makeArgv` or `makeEnvv` ends in
`log.Fatalf` or in a panic, `main` ends in the same way and executes nothing. -/
theorem main_dispatch (p : Process) (W arg0 : String) (rest : List String)
    (hexe : p.osExecutable = .ok W) (hargs : p.args = arg0 :: rest) :
    ((filepathBase W = "nvidia-container-runtime" ∨
        filepathBase W = "nvidia-container-runtime.cdi" ∨
        filepathBase W = "nvidia-container-runtime.legacy") →
      p.statOk "/proc/driver/nvidia/version" = false →
      ∀ runc, p.lookPath "runc" = .ok runc →
        main p =
          ([.log "nvidia driver modules are not yet loaded, invoking runc directly"],
            .exec runc ("runc" :: rest) p.environ) ∧
        ∀ path, Event.opened path ∉ (main p).1) ∧
    ((¬ (filepathBase W = "nvidia-container-runtime" ∨
          filepathBase W = "nvidia-container-runtime.cdi" ∨
          filepathBase W = "nvidia-container-runtime.legacy") ∨
        p.statOk "/proc/driver/nvidia/version" = true) →
      (∀ ev1 ev2 argv envv, makeArgv p W = (ev1, .ok argv) → makeEnvv p W = (ev2, .ok envv) →
        main p = (ev1 ++ ev2, .exec (W ++ ".real") argv envv)) ∧
      (∀ program argv envv, (main p).2 = .exec program argv envv →
        program = W ++ ".real" ∧ (makeArgv p W).2 = .ok argv ∧
          (makeEnvv p W).2 = .ok envv) ∧
      (∀ ev x, makeArgv p W = (ev, .error x) → main p = (ev, x)) ∧
      (∀ ev1 ev2 argv x, makeArgv p W = (ev1, .ok argv) → makeEnvv p W = (ev2, .error x) →
        main p = (ev1 ++ ev2, x)) ∧
      (∀ err1 err2, p.osOpen (W ++ ".argv") = .notExist err1 →
        p.osOpen (W ++ ".envv") = .notExist err2 →
        main p =
          ([.opened (W ++ ".argv"), .opened (W ++ ".envv")],
            .exec (W ++ ".real") ((arg0 ++ ".real") :: rest) p.environ))) := by
  constructor
  · intro hbase hstat runc hrunc
    have hcond : (isRuntimeWrapper W && !isNvidiaModuleLoaded p) = true := by
      rw [(isRuntimeWrapper_iff W).2 hbase]
      simp [isNvidiaModuleLoaded, hstat]
    have hmain : main p =
        ([.log "nvidia driver modules are not yet loaded, invoking runc directly"],
          .exec runc ("runc" :: rest) p.environ) := by
      unfold main
      simp only [hexe, hcond, if_true, hrunc, hargs]
    refine ⟨hmain, ?_⟩
    intro path hmem
    rw [hmain] at hmem
    simp at hmem
  · intro hno
    have hcond : (isRuntimeWrapper W && !isNvidiaModuleLoaded p) = false := by
      rcases hno with h | h
      · have h1 : isRuntimeWrapper W = false := by
          rw [Bool.eq_false_iff]
          exact fun h2 => h ((isRuntimeWrapper_iff W).1 h2)
        simp [h1]
      · simp [isNvidiaModuleLoaded, h]
    have hboth : ∀ ev1 ev2 argv envv, makeArgv p W = (ev1, .ok argv) →
        makeEnvv p W = (ev2, .ok envv) →
        main p = (ev1 ++ ev2, .exec (W ++ ".real") argv envv) := by
      intro ev1 ev2 argv envv h1 h2
      unfold main
      simp only [hexe, hcond, h1, h2]
      simp
    refine ⟨hboth, ?_, ?_, ?_, ?_⟩
    · intro program argv envv hmain
      unfold main at hmain
      simp only [hexe, hcond] at hmain
      have ha := makeArgv_never_exec p W program argv envv
      have he := makeEnvv_never_exec p W program argv envv
      rcases h1 : makeArgv p W with ⟨ev1, r1⟩
      rcases h2 : makeEnvv p W with ⟨ev2, r2⟩
      rw [h1] at hmain ha
      rw [h2] at he
      cases r1 with
      | error x =>
        simp only [Bool.false_eq_true, if_false] at hmain
        exact absurd (by rw [← hmain]) ha
      | ok a =>
        cases r2 with
        | error x =>
          simp only [Bool.false_eq_true, if_false, h2] at hmain
          exact absurd (by rw [← hmain]) he
        | ok b =>
          simp only [Bool.false_eq_true, if_false, h2, Exit.exec.injEq] at hmain
          obtain ⟨hp, hargv, henvv⟩ := hmain
          exact ⟨hp.symm, by rw [hargv], by rw [henvv]⟩
    · intro ev x h1
      unfold main
      simp only [hexe, hcond, h1]
      simp
    · intro ev1 ev2 argv x h1 h2
      unfold main
      simp only [hexe, hcond, h1, h2]
      simp
    · intro err1 err2 h1 h2
      have ha : makeArgv p W = ([.opened (W ++ ".argv")], .ok ((arg0 ++ ".real") :: rest)) := by
        unfold makeArgv
        simp only [hargs, h1]
        simp
      have he : makeEnvv p W = ([.opened (W ++ ".envv")], .ok p.environ) := by
        unfold makeEnvv
        simp only [h2]
      have hm := hboth _ _ _ _ ha he
      simpa using hm

theorem main_dispatch_witness :
    ((runtimeProcess noSidecars).osExecutable =
        .ok "/usr/local/nvidia/toolkit/nvidia-container-runtime" ∧
      (runtimeProcess noSidecars).args = "nvidia-container-runtime" :: ["create"] ∧
      (filepathBase "/usr/local/nvidia/toolkit/nvidia-container-runtime" =
          "nvidia-container-runtime" ∨
        filepathBase "/usr/local/nvidia/toolkit/nvidia-container-runtime" =
          "nvidia-container-runtime.cdi" ∨
        filepathBase "/usr/local/nvidia/toolkit/nvidia-container-runtime" =
          "nvidia-container-runtime.legacy") ∧
      (runtimeProcess noSidecars).statOk "/proc/driver/nvidia/version" = false ∧
      (runtimeProcess noSidecars).lookPath "runc" = .ok "/usr/bin/runc" ∧
      main (runtimeProcess noSidecars) =
        ([.log "nvidia driver modules are not yet loaded, invoking runc directly"],
          .exec "/usr/bin/runc" ("runc" :: ["create"]) (runtimeProcess noSidecars).environ)) ∧
    ((ctkProcess noSidecars).osExecutable = .ok "/usr/local/nvidia/toolkit/nvidia-ctk" ∧
      (ctkProcess noSidecars).args = "nvidia-ctk" :: ["--version"] ∧
      (ctkProcess noSidecars).statOk "/proc/driver/nvidia/version" = true ∧
      main (ctkProcess noSidecars) =
        ([.opened ("/usr/local/nvidia/toolkit/nvidia-ctk" ++ ".argv"),
          .opened ("/usr/local/nvidia/toolkit/nvidia-ctk" ++ ".envv")],
          .exec ("/usr/local/nvidia/toolkit/nvidia-ctk" ++ ".real")
            (("nvidia-ctk" ++ ".real") :: ["--version"]) (ctkProcess noSidecars).environ)) :=
  ⟨⟨by decide, by decide, by decide, by decide, by decide,
    ((main_dispatch (runtimeProcess noSidecars)
      "/usr/local/nvidia/toolkit/nvidia-container-runtime" "nvidia-container-runtime" ["create"]
      (by decide) (by decide)).1 (by decide) (by decide) "/usr/bin/runc" (by decide)).1⟩,
    ⟨by decide, by decide, by decide,
      ((main_dispatch (ctkProcess noSidecars) "/usr/local/nvidia/toolkit/nvidia-ctk"
        "nvidia-ctk" ["--version"] (by decide) (by decide)).2 (Or.inr (by decide))).2.2.2.2
        "open /usr/local/nvidia/toolkit/nvidia-ctk.argv: no such file or directory"
        "open /usr/local/nvidia/toolkit/nvidia-ctk.envv: no such file or directory"
        (by decide) (by decide)⟩⟩

/-! ## Round trip of the envv sidecar -/

theorem sortStrings_map {α : Type} (f : α → String) (xs : List α) :
    ∃ ys : List α, ys.Perm xs ∧ sortStrings (xs.map f) = ys.map f :=
  ⟨xs.insertionSort (fun a b => stringLE (f a) (f b) = true),
    List.perm_insertionSort _ xs,
    (List.map_insertionSort (fun a b => stringLE (f a) (f b) = true)
      (fun a b => stringLE a b = true) f xs (fun _ _ _ _ => Iff.rfl)).symm⟩

theorem find?_unique {α : Type} (pred : α → Bool) (l : List α) (x : α) (hx : x ∈ l)
    (hp : pred x = true) (hu : ∀ y ∈ l, pred y = true → y = x) : l.find? pred = some x := by
  induction l with
  | nil => cases hx
  | cons a as ih =>
    by_cases ha : pred a = true
    · rw [List.find?_cons_of_pos _ ha, hu a (List.mem_cons_self _ _) ha]
    · rw [List.find?_cons_of_neg _ ha]
      rcases List.mem_cons.1 hx with h | h
      · exact absurd (h ▸ hp) ha
      · exact ih h (fun y hy => hu y (List.mem_cons_of_mem _ hy))

theorem entryName_kv (k v : String) (h : '=' ∉ k.data) : entryName (k ++ "=" ++ v) = k := by
  unfold entryName
  rw [line_data, splitEq_kv _ _ h]

theorem plain_kv (k v : String) (hk : '\n' ∉ k.data) (hv : '\n' ∉ v.data)
    (hcr : v.data.getLast? ≠ some '\r') :
    '\n' ∉ (k ++ "=" ++ v).data ∧ (k ++ "=" ++ v).data.getLast? ≠ some '\r' := by
  rw [line_data]
  constructor
  · intro h
    rcases List.mem_append.1 h with h1 | h1
    · exact hk h1
    · rcases List.mem_cons.1 h1 with h2 | h2
      · revert h2
        decide
      · exact hv h2
  · rw [List.getLast?_append_of_ne_nil _ (List.cons_ne_nil _ _)]
    cases hd : v.data with
    | nil => decide
    | cons c cs =>
      rw [List.getLast?_cons_cons, ← hd]
      exact hcr

theorem resolvedEntry_ltPATH (p : Process) (v : String) :
    resolvedEntry p "<PATH" v = "PATH" ++ "=" ++ (v ++ ":" ++ p.getenv "PATH") := by
  have h1 : HasPrefix "<PATH" "<" = true := by decide
  have h2 : dropFirst "<PATH" = "PATH" := by decide
  unfold resolvedEntry
  simp only [h1, if_true, h2, String.append_assoc]

theorem resolvedEntry_plain (p : Process) (k v : String) (h1 : HasPrefix k "<" = false)
    (h2 : HasPrefix k ">" = false) : resolvedEntry p k v = k ++ "=" ++ v := by
  unfold resolvedEntry
  simp [h1, h2]

theorem lookupEnv_none_keys (e : executable) (k : String) (h : e.lookupEnv k = none) :
    ∀ kv ∈ e.envEntries, kv.1 ≠ k := by
  unfold executable.lookupEnv at h
  unfold executable.envEntries
  cases he : e.envm with
  | none =>
    intro kv hkv
    cases hkv
  | some m =>
    simp only [he, Option.some_bind] at h
    exact (get?_eq_none_iff m k).1 h

theorem makeEnvv_of_lines (p : Process) (program data : String)
    (kvs : List (String × String))
    (hopen : p.osOpen (program ++ ".envv") = .file data none)
    (hscan : scan data none = ⟨kvs.map (fun kv => kv.1 ++ "=" ++ kv.2), none⟩)
    (hkeys : ∀ kv ∈ kvs, '=' ∉ kv.1.data) :
    (makeEnvv p program).2 = .ok (kvs.map (fun kv => resolvedEntry p kv.1 kv.2) ++ p.environ) := by
  unfold makeEnvv
  simp only [hopen, hscan, resolveLines_kvs p kvs hkeys]

theorem firstEntry_append_of_unique (decoded rest : List String) (name x : String)
    (hx : x ∈ decoded) (hp : entryName x = name)
    (hu : ∀ y ∈ decoded, entryName y = name → y = x) :
    firstEntry (decoded ++ rest) name = some x := by
  unfold firstEntry
  rw [List.find?_append, find?_unique _ decoded x hx (by simpa using hp)
    (fun y hy hpy => hu y hy (by simpa using hpy))]
  rfl

/-- C10 fails as stated: the value `bar` followed by a carriage return contains no newline, yet
the scanner of the wrapper drops the carriage return at the end of the line, so the first entry
for `FOO` that `makeEnvv` yields from the written file is `FOO=bar`, not `FOO=` followed by the
substituted value. -/
theorem envv_round_trip_cr_counterexample :
    crExecutable.lookupEnv "PATH" = none ∧
    (∀ kv ∈ crExecutable.envEntries,
      '=' ∉ kv.1.data ∧ '\n' ∉ kv.1.data ∧ HasPrefix kv.1 "<" = false ∧
        HasPrefix kv.1 ">" = false ∧
        '\n' ∉ (specDeps.newReplacements specDeps.destDirPattern "/dest" kv.2).data) ∧
    '\n' ∉ ("/dest" : String).data ∧
    (crExecutable.writeWrapperEnvv specDeps RangeOrder.stored "/w/nvidia-ctk" "/dest"
      emptySys).2.contentOf "/w/nvidia-ctk.envv" = some "<PATH=/dest\nFOO=bar\r\n" ∧
    (ctkProcess (envvOnly "<PATH=/dest\nFOO=bar\r\n")).getenv "PATH" = "/usr/bin" ∧
    (makeEnvv (ctkProcess (envvOnly "<PATH=/dest\nFOO=bar\r\n")) "/w/nvidia-ctk").2 =
      .ok ["PATH=/dest:/usr/bin", "FOO=bar", "PATH=/usr/bin"] ∧
    firstEntry ["PATH=/dest:/usr/bin", "FOO=bar", "PATH=/usr/bin"] "FOO" = some "FOO=bar" ∧
    firstEntry ["PATH=/dest:/usr/bin", "FOO=bar", "PATH=/usr/bin"] "FOO" ≠
      some ("FOO" ++ "=" ++ specDeps.newReplacements specDeps.destDirPattern "/dest" "bar\r") := by
  decide

/-- C10, amended: for every destination folder `D` and every mapping with no key `PATH` whose
keys contain no `=` or newline and do not start with `<` or `>`, whose substituted values, like
the substituted `D`, contain no newline and do not end in a carriage return, and whose written
lines are each shorter than the scanner's buffer of 65536 bytes: decoding with `makeEnvv` the
exact `.envv` content written by `writeWrapperEnvv`, under any live environment with
`PATH = x`, does not panic and yields a vector in which the first entry for the name `PATH` is
`PATH=` followed by the substituted `D`, a colon and `x`, and, for every key `k` of the mapping,
the first entry for `k` is `k=` followed by the substituted value of `k`. -/
theorem envv_round_trip (T : Deps) (order : RangeOrder) (e : executable)
    (wrapperPath destFolder content x program : String) (s : Sys) (p : Process)
    (hpath : e.lookupEnv "PATH" = none)
    (hkeys : ∀ kv ∈ e.envEntries,
      '=' ∉ kv.1.data ∧ '\n' ∉ kv.1.data ∧ HasPrefix kv.1 "<" = false ∧
        HasPrefix kv.1 ">" = false)
    (hvals : ∀ kv ∈ e.envEntries,
      '\n' ∉ (T.newReplacements T.destDirPattern destFolder kv.2).data ∧ (T.newReplacements T.destDirPattern destFolder kv.2).data.getLast? ≠ some '\r')
    (hdest : '\n' ∉ (T.newReplacements T.destDirPattern destFolder destFolder).data ∧ (T.newReplacements T.destDirPattern destFolder destFolder).data.getLast? ≠ some '\r')
    (hlen : ∀ l ∈ e.envvLines T order destFolder, l.utf8ByteSize < maxScanTokenSize)
    (hopen : s.openFileErr (wrapperPath ++ ".envv") = none)
    (hwritten : (e.writeWrapperEnvv T order wrapperPath destFolder s).2.contentOf
      (wrapperPath ++ ".envv") = some content)
    (hfile : p.osOpen (program ++ ".envv") = .file content none)
    (henv : p.getenv "PATH" = x) :
    ∃ envv, (makeEnvv p program).2 = .ok envv ∧
      firstEntry envv "PATH" = some ("PATH=" ++ T.newReplacements T.destDirPattern destFolder destFolder ++ ":" ++ x) ∧
      ∀ kv ∈ e.envEntries, firstEntry envv kv.1 = some (kv.1 ++ "=" ++ T.newReplacements T.destDirPattern destFolder kv.2) := by
  have hcont := (writeWrapperEnvv_content T order e wrapperPath destFolder s hopen).2
  rw [hcont] at hwritten
  have hc : joinLines (e.envvLines T order destFolder) = content := Option.some.inj hwritten
  subst hc
  have hent := effectiveEnvm_entries_noPath e destFolder hpath
  have hnoPATH := lookupEnv_none_keys e "PATH" hpath
  have hmemEff : ∀ kv, kv ∈ (e.effectiveEnvm destFolder).entries ↔
      kv = ("<PATH", destFolder) ∨ kv ∈ e.envEntries := by
    intro kv
    rw [hent, List.mem_cons, List.mem_filter, List.mem_filter]
    constructor
    · rintro (h | ⟨⟨h1, _⟩, _⟩)
      · exact Or.inl h
      · exact Or.inr h1
    · rintro (h | h)
      · exact Or.inl h
      · refine Or.inr ⟨⟨h, by simpa using hnoPATH kv h⟩, ?_⟩
        have h3 := (hkeys kv h).2.2.1
        have h4 : kv.1 ≠ "<PATH" := by
          intro heq
          rw [heq] at h3
          revert h3
          decide
        simpa using h4
  have hplain : ∀ l ∈ e.envvLines T order destFolder, PlainLine l := by
    intro l hl
    obtain ⟨kv, hkv, hkl⟩ := (mem_envvLines T order e destFolder l).1 hl
    have hpl : '\n' ∉ l.data ∧ l.data.getLast? ≠ some '\r' := by
      rw [← hkl]
      rcases (hmemEff kv).1 hkv with h | h
      · subst h
        exact plain_kv "<PATH" _ (by decide) hdest.1 hdest.2
      · exact plain_kv kv.1 _ (hkeys kv h).2.1 (hvals kv h).1 (hvals kv h).2
    exact ⟨hpl.1, hpl.2, hlen l hl⟩
  obtain ⟨kvs, hperm, hlines⟩ := sortStrings_map (fun kv : String × String => kv.1 ++ "=" ++ T.newReplacements T.destDirPattern destFolder kv.2)
    (order.iter (e.effectiveEnvm destFolder).entries)
  have hlines2 : e.envvLines T order destFolder =
      (kvs.map (fun kv => (kv.1, T.newReplacements T.destDirPattern destFolder kv.2))).map (fun kv => kv.1 ++ "=" ++ kv.2) := by
    rw [List.map_map]
    exact hlines
  have hkvsmem : ∀ kv, kv ∈ kvs ↔ kv = ("<PATH", destFolder) ∨ kv ∈ e.envEntries :=
    fun kv => ((hperm.trans (order.perm _)).mem_iff).trans (hmemEff kv)
  have hscan := scan_joinLines _ hplain
  have hkeys2 : ∀ kv ∈ kvs.map (fun kv => (kv.1, T.newReplacements T.destDirPattern destFolder kv.2)), '=' ∉ kv.1.data := by
    intro kv hkv
    obtain ⟨kv0, hkv0, rfl⟩ := List.mem_map.1 hkv
    rcases (hkvsmem kv0).1 hkv0 with h | h
    · subst h
      show '=' ∉ ("<PATH" : String).data
      decide
    · exact (hkeys kv0 h).1
  have hres := makeEnvv_of_lines p program _ (kvs.map (fun kv => (kv.1, T.newReplacements T.destDirPattern destFolder kv.2))) hfile
    (by rw [hscan, hlines2]) hkeys2
  rw [List.map_map] at hres
  refine ⟨_, hres, ?_, ?_⟩
  · have hx : resolvedEntry p "<PATH" (T.newReplacements T.destDirPattern destFolder destFolder) =
        "PATH=" ++ T.newReplacements T.destDirPattern destFolder destFolder ++ ":" ++ x := by
      rw [resolvedEntry_ltPATH, henv]
      have h5 : ("PATH" ++ "=" : String) = "PATH=" := by decide
      rw [← h5]
      simp only [String.append_assoc]
    rw [← hx]
    apply firstEntry_append_of_unique
    · exact List.mem_map.2 ⟨("<PATH", destFolder), (hkvsmem _).2 (Or.inl rfl), rfl⟩
    · rw [resolvedEntry_ltPATH]
      exact entryName_kv "PATH" _ (by decide)
    · intro y hy hname
      obtain ⟨kv, hkv, rfl⟩ := List.mem_map.1 hy
      rcases (hkvsmem kv).1 hkv with h | h
      · subst h
        rfl
      · exfalso
        simp only [Function.comp_apply] at hname
        rw [resolvedEntry_plain p _ _ (hkeys kv h).2.2.1 (hkeys kv h).2.2.2,
          entryName_kv _ _ (hkeys kv h).1] at hname
        exact hnoPATH kv h hname
  · intro kv0 hkv0
    have hx : resolvedEntry p kv0.1 (T.newReplacements T.destDirPattern destFolder kv0.2) = kv0.1 ++ "=" ++ T.newReplacements T.destDirPattern destFolder kv0.2 :=
      resolvedEntry_plain p _ _ (hkeys kv0 hkv0).2.2.1 (hkeys kv0 hkv0).2.2.2
    rw [← hx]
    apply firstEntry_append_of_unique
    · exact List.mem_map.2 ⟨kv0, (hkvsmem _).2 (Or.inr hkv0), rfl⟩
    · rw [hx]
      exact entryName_kv _ _ (hkeys kv0 hkv0).1
    · intro y hy hname
      obtain ⟨kv, hkv, rfl⟩ := List.mem_map.1 hy
      simp only [Function.comp_apply] at hname ⊢
      rcases (hkvsmem kv).1 hkv with h | h
      · exfalso
        subst h
        rw [resolvedEntry_ltPATH, entryName_kv "PATH" _ (by decide)] at hname
        exact hnoPATH kv0 hkv0 hname.symm
      · rw [resolvedEntry_plain p _ _ (hkeys kv h).2.2.1 (hkeys kv h).2.2.2,
          entryName_kv _ _ (hkeys kv h).1] at hname
        have heq : kv = kv0 := List.inj_on_of_nodup_map (envEntries_nodup e) h hkv0 hname
        rw [heq]

theorem envv_round_trip_witness :
    fooBarExecutable.lookupEnv "PATH" = none ∧
    (fooBarExecutable.writeWrapperEnvv specDeps RangeOrder.stored "/w/nvidia-ctk" "/dest"
      emptySys).2.contentOf ("/w/nvidia-ctk" ++ ".envv") =
        some "<PATH=/dest\nBAZ=/dest/lib\nFOO=BAR\n" ∧
    (ctkProcess (envvOnly "<PATH=/dest\nBAZ=/dest/lib\nFOO=BAR\n")).getenv "PATH" =
      "/usr/bin" ∧
    ∃ envv,
      (makeEnvv (ctkProcess (envvOnly "<PATH=/dest\nBAZ=/dest/lib\nFOO=BAR\n"))
        "/w/nvidia-ctk").2 = .ok envv ∧
      firstEntry envv "PATH" =
        some ("PATH=" ++ specDeps.newReplacements specDeps.destDirPattern "/dest" "/dest" ++
          ":" ++ "/usr/bin") ∧
      ∀ kv ∈ fooBarExecutable.envEntries,
        firstEntry envv kv.1 =
          some (kv.1 ++ "=" ++ specDeps.newReplacements specDeps.destDirPattern "/dest" kv.2) :=
  ⟨by decide, by decide, by decide,
    envv_round_trip specDeps RangeOrder.stored fooBarExecutable "/w/nvidia-ctk" "/dest"
      "<PATH=/dest\nBAZ=/dest/lib\nFOO=BAR\n" "/usr/bin" "/w/nvidia-ctk" emptySys
      (ctkProcess (envvOnly "<PATH=/dest\nBAZ=/dest/lib\nFOO=BAR\n"))
      (by decide) (by decide) (by decide) (by decide) (by decide) (by decide) (by decide)
      (by decide) (by decide)⟩

end Toolkit
